import Mathlib

/-!
# Verification of the CScript VS Code extension's diagnostic engine

Shallow embedding of `src/extension.ts` (class `CScriptDiagnosticProvider`),
the heuristic syntax-diagnostic engine for CScript source text.

Modelling conventions:
* a line of text is a `List Char`; a document is a `List (List Char)` of its
  lines (the source computes `text.split('\n')`, which always yields at least
  one line and lines never contain `'\n'`);
* JavaScript string positions are `Nat` indices; results of `indexOf`,
  `lastIndexOf` and `search`, which can be the not-found value `-1`, are
  modelled as `Int`, exactly as the source feeds them to `vscode.Range`;
* each regular expression of the source is hand-translated to an executable
  matcher; greedy repetition and backtracking are either transcribed
  literally (nested descending searches, `armGroup1`) or resolved in place
  when character classes are disjoint so that no backtracking can occur
  (each such resolution is justified in a comment at the definition);
* `parseInt` on a digit sequence is modelled as exact `Nat` conversion
  (JavaScript numbers represent integers below 2^53 exactly; all the
  documented scenarios are in that regime);
* the diagnostic collection (`vscode.DiagnosticCollection`) is an
  association list from document URIs to diagnostic lists, and the
  configuration is the record of the flags `updateDiagnostics` reads.
-/

/-- The JavaScript whitespace class `\s` (`String.prototype.trim` strips
the same class): the ASCII whitespace characters plus NO-BREAK SPACE
(0xa0), the byte-order mark (0xfeff), OGHAM SPACE MARK (0x1680), the
Unicode space block 0x2000-0x200a, the line/paragraph separators
0x2028/0x2029, NARROW NO-BREAK SPACE (0x202f), MEDIUM MATHEMATICAL SPACE
(0x205f) and IDEOGRAPHIC SPACE (0x3000). -/
def jsIsWs (c : Char) : Bool :=
  c = ' ' || c = '\t' || c = '\n' || c = '\r' ||
  c = '\x0b' || c = '\x0c' || c = Char.ofNat 0xa0 || c = Char.ofNat 0xfeff ||
  c = Char.ofNat 0x1680 ||
  (Char.ofNat 0x2000 ≤ c && c ≤ Char.ofNat 0x200a) ||
  c = Char.ofNat 0x2028 || c = Char.ofNat 0x2029 ||
  c = Char.ofNat 0x202f || c = Char.ofNat 0x205f || c = Char.ofNat 0x3000

/-- The JavaScript word-character class `\w` = `[A-Za-z0-9_]`. -/
def isWordChar (c : Char) : Bool :=
  ('a' ≤ c && c ≤ 'z') || ('A' ≤ c && c ≤ 'Z') || ('0' ≤ c && c ≤ '9') || c = '_'

/-- The JavaScript digit class `\d` = `[0-9]`. -/
def isDigitChar (c : Char) : Bool := '0' ≤ c && c ≤ '9'

/-- What the JavaScript `.` (dot, no `s` flag) matches: anything but a line
terminator. -/
def dotChar (c : Char) : Bool :=
  !(c = '\n' || c = '\r' || c = Char.ofNat 0x2028 || c = Char.ofNat 0x2029)

/-- The brace characters, written via code points to keep them out of
string/char literals. -/
def lbrace : Char := Char.ofNat 123

def rbrace : Char := Char.ofNat 125

def backquoteChar : Char := Char.ofNat 96

/-- Test that `p` is an initial segment of `l` (JS `startsWith`). -/
def leadsWith : List Char → List Char → Bool
  | [], _ => true
  | _ :: _, [] => false
  | p :: ps, c :: cs => p = c && leadsWith ps cs

/-- Test that `s` is a final segment of `l` (JS `endsWith`). -/
def endsList (s l : List Char) : Bool := leadsWith s.reverse l.reverse

/-- All indices of `l` at which the pattern `pat` occurs, in ascending
order. -/
def occList (pat l : List Char) : List Nat :=
  (List.range l.length).filter (fun i => leadsWith pat (l.drop i))

/-- JS `String.prototype.indexOf` for a nonempty pattern: first occurrence
index, `-1` when absent. -/
def jsIndexOf (l pat : List Char) : Int :=
  match occList pat l with
  | [] => -1
  | i :: _ => (i : Int)

/-- JS `String.prototype.lastIndexOf` for a nonempty pattern. -/
def jsLastIndexOf (l pat : List Char) : Int :=
  match (occList pat l).getLast? with
  | none => -1
  | some i => (i : Int)

/-- JS `String.prototype.includes` for a nonempty pattern. -/
def containsSub (l pat : List Char) : Bool := !(occList pat l).isEmpty

/-- JS `String.prototype.trim`. -/
def trimEnd (l : List Char) : List Char := (l.reverse.dropWhile jsIsWs).reverse

def jsTrim (l : List Char) : List Char := trimEnd (l.dropWhile jsIsWs)

/-- JS `line.search(/\S/)`: index of the first non-whitespace character,
`-1` when the line is entirely whitespace. -/
def searchNonWs (l : List Char) : Int :=
  match (List.range l.length).filter (fun i => !jsIsWs (l.getD i ' ')) with
  | [] => -1
  | i :: _ => (i : Int)

/-- Number of occurrences of character `c` in `l`
(JS `(line.match(/c/g) || []).length`). -/
def countCh (c : Char) (l : List Char) : Nat := (l.filter (fun d => d = c)).length

/-- Word boundary `\b` on the left of position `i` (the matched character at
`i` being a word character): start of string, or preceded by a non-word
character. -/
def noWordBefore (l : List Char) (i : Nat) : Bool :=
  if i = 0 then true
  else
    match l.get? (i - 1) with
    | some c => !isWordChar c
    | none => true

/-- Word boundary `\b` at position `k` on the right of a word-character run:
end of string or a non-word character at `k`. -/
def noWordAt (l : List Char) (k : Nat) : Bool :=
  match l.get? k with
  | some c => !isWordChar c
  | none => true

/-- Slice: the characters of `l` at positions `[i, j)`
(JS `l.slice(i, j)` for `i ≤ j`). -/
def sliceL (l : List Char) (i j : Nat) : List Char := (l.take j).drop i

/-- The numeric value of a digit string (`parseInt` on a `\d+` match;
exact for values below 2^53, which covers all representable inputs of the
documented scenarios). -/
def digitsToNat (ds : List Char) : Nat :=
  ds.foldl (fun a c => a * 10 + (c.toNat - '0'.toNat)) 0

/-! ## The diagnostic data model (`vscode.Diagnostic` as the source uses it) -/

inductive Severity where
  | error
  | warning
  | information
deriving DecidableEq, Repr

/-- One diagnostic: the `vscode.Range` the source constructs (line/column
pairs, columns kept as `Int` because the source can pass `-1` from a failed
`search`), a severity, and a message.  The source always sets
`diagnostic.source = 'cscript'`, so that field is omitted. -/
structure Diagnostic where
  startLine : Nat
  startCol : Int
  endLine : Nat
  endCol : Int
  severity : Severity
  message : String
deriving DecidableEq, Repr

def mkDiag (sl : Nat) (sc : Int) (el : Nat) (ec : Int) (sev : Severity)
    (msg : String) : Diagnostic :=
  ⟨sl, sc, el, ec, sev, msg⟩

/-! ## Pipeline operator rule (`checkPipelineOperators`, extension.ts 245-271) -/

/-- The match positions of the global regex `/\|[^>]/g` run by repeated
`exec`: a literal `|` followed by one character other than `>`; after a
match the scan resumes past both characters (`lastIndex` advances by the
match length 2).  A final `|` with no following character cannot match
(`[^>]` must consume a character). -/
def pipelineMatches : List Char → Nat → List Nat
  | c :: d :: rest, i =>
    if c = '|' && !(d = '>') then i :: pipelineMatches rest (i + 2)
    else pipelineMatches (d :: rest) (i + 1)
  | _, _ => []

def pipeErrMsg : String := "Invalid pipeline operator. Use \"|>\" for pipeline operations."

def pipeContMsg : String :=
  "Pipeline operator at end of line requires a continuation on the next line."

def pipeGt : List Char := "|>".data

/-- extension.ts 245-271. -/
def checkPipelineOperators (line : List Char) (ln : Nat) : List Diagnostic :=
  (pipelineMatches line 0).map
    (fun (i : Nat) => mkDiag ln (i : Int) ln ((i : Int) + 2) Severity.error pipeErrMsg) ++
  (if endsList pipeGt (jsTrim line) then
    [mkDiag ln (jsLastIndexOf line pipeGt) ln (line.length : Int) Severity.warning pipeContMsg]
  else [])

def c2BadLine : List Char := "let badPipeline = data | filter;".data

def c2GoodLine : List Char := "let goodPipeline = data |> filter |> map;".data

/-! ## Match expression rule (`checkMatchExpressions`, extension.ts 273-319) -/

def kwMatch : List Char := "match".data

/-- Test of `/\bmatch\s*\{/` : some position `i` has a word boundary on its
left, the literal `match`, then optional whitespace, then `{`.  (`\s*` is
greedy; since `{` is not in `\s`, skipping the maximal whitespace run and
then requiring `{` is equivalent to the backtracking search.) -/
def matchKeywordTest (l : List Char) : Bool :=
  (List.range l.length).any (fun i =>
    noWordBefore l i && leadsWith kwMatch (l.drop i) &&
    ((l.drop (i + 5)).dropWhile jsIsWs).head? = some lbrace)

/-- Net `{` minus `}` contribution of one line
(extension.ts 283-284: `(line.match(/\{/g) || []).length - …`). -/
def netBraces (l : List Char) : Int := (countCh lbrace l : Int) - (countCh rbrace l : Int)

/-- The forward scan of extension.ts 281-290 after the originating line: the
running count starts from the originating line's net contribution `acc`, adds
each subsequent line, and stops successfully at the first later line whose
end brings the count to zero (`braceCount === 0 && i > lineNumber`). -/
def closeSearch : List (List Char) → Int → Bool
  | [], _ => false
  | l :: rest, acc =>
    let acc' := acc + netBraces l
    if acc' = 0 then true else closeSearch rest acc'

def matchCloseMsg : String := "Match expression is not properly closed with \x7d"

/-- The unclosed-`match` part of `checkMatchExpressions`
(extension.ts 275-302).  The range anchor is `line.indexOf('match')`, the
first occurrence of the substring. -/
def checkMatchClosure (line : List Char) (ln : Nat) (lines : List (List Char)) :
    List Diagnostic :=
  if matchKeywordTest line then
    if closeSearch (lines.drop (ln + 1)) (netBraces line) then []
    else
      [mkDiag ln (jsIndexOf line kwMatch) ln (jsIndexOf line kwMatch + 5)
        Severity.error matchCloseMsg]
  else []

def arrowTok : List Char := "=>".data

/-- Tail match `\s*(.*)$` applied to the text after a matched `=>` (no `s` flag, so
`.` excludes line terminators): some whitespace prefix is consumed and the
remainder must be all dot-matchable.  Taking the maximal whitespace prefix
is optimal: any character a shorter prefix leaves behind is whitespace,
which is dot-matchable unless it is a line terminator, and a line
terminator in the remainder dooms every shorter prefix too. -/
def armSuffixOk (t : List Char) : Bool := (t.dropWhile jsIsWs).all dotChar

/-- Group 1 of `line.match(/^\s*(.+)\s*=>\s*(.*)$/)` (`none` when the regex
does not match).  This is a literal transcription of the backtracking
search of a leftmost-greedy engine: `^\s*` tries the longest whitespace
prefix `i` first and gives characters back on failure; `(.+)` tries the
longest end position `j` first; the `\s*` before `=>` tries the longest
whitespace extension `d` first; the tail `\s*(.*)$` is `armSuffixOk`. -/
def armGroup1 (s : List Char) : Option (List Char) :=
  (List.range ((s.takeWhile jsIsWs).length + 1)).reverse.findSome? (fun i =>
    (List.range (s.length + 1)).reverse.findSome? (fun j =>
      if i < j && (sliceL s i j).all dotChar then
        (List.range (((s.drop j).takeWhile jsIsWs).length + 1)).reverse.findSome? (fun d =>
          if leadsWith arrowTok (s.drop (j + d)) && armSuffixOk (s.drop (j + d + 2)) then
            some (sliceL s i j)
          else none)
      else none))

def armMsg : String := "Match arm must have a pattern before \"=>\""

/-- The malformed-arm part of `checkMatchExpressions` (extension.ts
304-318): the regex is tested against `line.trim()`, but group 1 is then
extracted from the raw `line`; the diagnostic fires when that group trims
to the empty string. -/
def checkMatchArm (line : List Char) (ln : Nat) : List Diagnostic :=
  if (armGroup1 (jsTrim line)).isSome then
    match armGroup1 line with
    | some g1 =>
      if jsTrim g1 = [] then
        [mkDiag ln 0 ln (line.length : Int) Severity.error armMsg]
      else []
    | none => []
  else []

/-- extension.ts 273-319. -/
def checkMatchExpressions (line : List Char) (ln : Nat) (lines : List (List Char)) :
    List Diagnostic :=
  checkMatchClosure line ln lines ++ checkMatchArm line ln

/-! ## LINQ query rule (`checkLinqQueries`, extension.ts 321-353) -/

def kwFrom : List Char := "from".data

def kwIn : List Char := "in".data

def kwSelect : List Char := "select".data

/-- Match attempt of `/\bfrom\s+(\w+)\s+in\s+/` at position `i`, returning
group 1.  All the repetition here is free of backtracking: `\s` and `\w`
are disjoint character classes and the literal `in` starts with a word
character, so each greedy run is forced to be the maximal one. -/
def linqVarAt (l : List Char) (i : Nat) : Option (List Char) :=
  if noWordBefore l i && leadsWith kwFrom (l.drop i) then
    let r1 := l.drop (i + 4)
    let w1 := (r1.takeWhile jsIsWs).length
    if w1 = 0 then none
    else
      let r2 := r1.drop w1
      let v := r2.takeWhile isWordChar
      if v.length = 0 then none
      else
        let r3 := r2.drop v.length
        let w2 := (r3.takeWhile jsIsWs).length
        if w2 = 0 then none
        else
          let r4 := r3.drop w2
          if leadsWith kwIn r4 && (((r4.drop 2).takeWhile jsIsWs).length ≥ 1) then some v
          else none
  else none

/-- Group 1 of `line.match(/\bfrom\s+(\w+)\s+in\s+/)` (first full match). -/
def linqFromVar (l : List Char) : Option (List Char) :=
  (List.range l.length).findSome? (linqVarAt l)

def isIdentStart (c : Char) : Bool :=
  ('a' ≤ c && c ≤ 'z') || ('A' ≤ c && c ≤ 'Z') || c = '_' || c = '$'

def isIdentChar (c : Char) : Bool := isIdentStart c || isDigitChar c

/-- Test of `/^[a-zA-Z_$][a-zA-Z0-9_$]*$/` on `v`. -/
def isValidIdent (v : List Char) : Bool :=
  match v with
  | [] => false
  | c :: cs => isIdentStart c && cs.all isIdentChar

/-- Occurrence test: `\bpat\b` occurs somewhere in `l` (word boundaries on both sides). -/
def wordOcc (l pat : List Char) : Bool :=
  (List.range l.length).any (fun i =>
    noWordBefore l i && leadsWith pat (l.drop i) && noWordAt l (i + pat.length))

def linqVarMsg : String := "Invalid variable name in LINQ query. Must be a valid identifier."

def linqSelectMsg : String := "LINQ query should end with a select clause."

/-- extension.ts 321-353. -/
def checkLinqQueries (line : List Char) (ln : Nat) : List Diagnostic :=
  (match linqFromVar line with
   | some v =>
     if !isValidIdent v then
       [mkDiag ln (jsIndexOf line v) ln (jsIndexOf line v + (v.length : Int))
         Severity.error linqVarMsg]
     else []
   | none => []) ++
  (if wordOcc line kwFrom && !wordOcc line kwSelect then
    [mkDiag ln (jsIndexOf line kwFrom) ln (jsIndexOf line kwFrom + 4)
      Severity.information linqSelectMsg]
  else [])

/-! ## Operator overloading rule (`checkOperatorOverloading`, extension.ts 355-373) -/

def kwOperator : List Char := "operator".data

def isOpChar (c : Char) : Bool :=
  c = '+' || c = '-' || c = '*' || c = '/' || c = '%' || c = '=' || c = '<' ||
  c = '>' || c = '!' || c = '&' || c = '|' || c = '^' || c = '~'

/-- Match attempt of `/\boperator\s+([+\-*\/%=<>!&|^~]+)\s*\(/` at `i`,
returning group 1.  `(`, the operator characters and whitespace are
pairwise disjoint, so every greedy run is forced to be maximal and no
backtracking can occur. -/
def opMatchAt (l : List Char) (i : Nat) : Option (List Char) :=
  if noWordBefore l i && leadsWith kwOperator (l.drop i) then
    let r1 := l.drop (i + 8)
    let w1 := (r1.takeWhile jsIsWs).length
    if w1 = 0 then none
    else
      let r2 := r1.drop w1
      let op := r2.takeWhile isOpChar
      if op.length = 0 then none
      else
        if ((r2.drop op.length).dropWhile jsIsWs).head? = some '(' then some op
        else none
  else none

def opFirstMatch (l : List Char) : Option (List Char) :=
  (List.range l.length).findSome? (opMatchAt l)

/-- The whitelist of extension.ts 360, in source order. -/
def validOperators : List String :=
  ["+", "-", "*", "/", "%", "==", "!=", "<", ">", "<=", ">=", "&&", "||",
   "&", "|", "^", "~", "<<", ">>", "+=", "-=", "*=", "/=", "%="]

def opMsg (op : List Char) : String :=
  "Invalid operator \"" ++ String.mk op ++ "\" for overloading. Valid operators: " ++
    String.intercalate ", " validOperators

/-- extension.ts 355-373. -/
def checkOperatorOverloading (line : List Char) (ln : Nat) : List Diagnostic :=
  match opFirstMatch line with
  | some op =>
    if !((validOperators.map String.data).contains op) then
      [mkDiag ln (jsIndexOf line op) ln (jsIndexOf line op + (op.length : Int))
        Severity.error (opMsg op)]
    else []
  | none => []

/-! ## Function / arrow rule (`checkFunctionSyntax`, extension.ts 375-406) -/

def kwFunction : List Char := "function".data

/-- Match attempt of `/\bfunction\s+(\w+)\s*\(/` at `i`, returning group 1
(same disjoint-class argument as for the operator rule). -/
def fnMatchAt (l : List Char) (i : Nat) : Option (List Char) :=
  if noWordBefore l i && leadsWith kwFunction (l.drop i) then
    let r1 := l.drop (i + 8)
    let w1 := (r1.takeWhile jsIsWs).length
    if w1 = 0 then none
    else
      let r2 := r1.drop w1
      let v := r2.takeWhile isWordChar
      if v.length = 0 then none
      else
        if ((r2.drop v.length).dropWhile jsIsWs).head? = some '(' then some v
        else none
  else none

def fnFirstMatch (l : List Char) : Option (List Char) :=
  (List.range l.length).findSome? (fnMatchAt l)

def fnNameMsg : String := "Invalid function name. Must be a valid identifier."

def arrowMsg : String := "Arrow function body is missing."

/-- Test of `/=>\s*$/` : after stripping trailing whitespace the line ends
with `=>`. -/
def arrowAtEnd (l : List Char) : Bool := endsList arrowTok (trimEnd l)

/-- extension.ts 375-406 (the method named `checkFunctionSyntax` in the
source; renamed here only because of lexical restrictions on names). -/
def checkFunctionRule (line : List Char) (ln : Nat) : List Diagnostic :=
  (match fnFirstMatch line with
   | some v =>
     if !isValidIdent v then
       [mkDiag ln (jsIndexOf line v) ln (jsIndexOf line v + (v.length : Int))
         Severity.error fnNameMsg]
     else []
   | none => []) ++
  (if arrowAtEnd line then
    [mkDiag ln (jsLastIndexOf line arrowTok) ln (line.length : Int)
      Severity.warning arrowMsg]
  else [])

/-! ## Braces and indentation rule (`checkBracesAndIndentation`,
extension.ts 408-424; the open/close brace counts of lines 410-411 are
computed but never used by the source, so they are omitted) -/

/-- Mixed indentation `/^\t+ +/` or `/^ +\t/` : a leading run of tabs followed by a space, or
a leading run of spaces followed by a tab. -/
def mixedIndent (l : List Char) : Bool :=
  (let t := (l.takeWhile (fun c => c = '\t')).length
   decide (1 ≤ t) && l.getD t ' ' = ' ') ||
  (let s := (l.takeWhile (fun c => c = ' ')).length
   decide (1 ≤ s) && l.getD s ' ' = '\t')

def mixedIndentMsg : String :=
  "Mixed tabs and spaces for indentation. Choose either tabs or spaces consistently."

/-- extension.ts 408-424.  Note the end column is `line.search(/\S/)`,
which is `-1` on a line that is entirely whitespace. -/
def checkBracesAndIndentation (line : List Char) (ln : Nat) : List Diagnostic :=
  if mixedIndent line then
    [mkDiag ln 0 ln (searchNonWs line) Severity.warning mixedIndentMsg]
  else []

/-! ## Unclosed string rule (`checkUnclosedStrings`, extension.ts 445-483) -/

/-- The character scan of extension.ts 451-471: state is (inString,
stringChar, escaped); `\` escapes the next character; `'`, `"` and the
backquote open a literal, the matching character closes it.  Returns the
final (inString, stringChar); the source resets `stringChar` to the empty
string on close, modelled by a space sentinel (never compared while
`inString` is false). -/
def strScanAux : List Char → Bool → Char → Bool → Bool × Char
  | [], inS, sc, _ => (inS, sc)
  | c :: rest, inS, sc, esc =>
    if esc then strScanAux rest inS sc false
    else if c = '\\' then strScanAux rest inS sc true
    else if !inS && (c = '"' || c = '\'' || c = backquoteChar) then
      strScanAux rest true c false
    else if inS && c = sc then strScanAux rest false ' ' false
    else strScanAux rest inS sc false

def unclosedStrMsg (sc : Char) : String :=
  if sc = backquoteChar then "Unclosed template literal." else "Unclosed string."

/-- extension.ts 445-483. -/
def checkUnclosedStrings (line : List Char) (ln : Nat) : List Diagnostic :=
  let r := strScanAux line false ' ' false
  if r.1 then [mkDiag ln 0 ln (line.length : Int) Severity.error (unclosedStrMsg r.2)]
  else []

/-! ## Invalid identifier rule (`checkInvalidIdentifiers`, extension.ts 485-498) -/

/-- The match positions and lengths of the global regex `/\b\d+\w+\b/g` run
by repeated `exec`.  A match must start at a word boundary on a digit;
`\d+\w+` with the trailing `\b` then necessarily extends to the end of the
maximal `\w`-run (greedy `\w+` reaches it, and `\b` cannot hold inside a
run), and backtracking `\d+` only redistributes characters between the two
groups, so a match at `p` exists iff the maximal word run starting at the
boundary `p` begins with a digit and has length at least 2, and the match
is then that whole run.  `exec` resumes at `lastIndex` = the end of the
run, whose following character is a non-word character, so no run is ever
entered mid-way.  The first argument is fuel (the initial line length), so
that the definition is structural and computable by the kernel. -/
def iiScanF : Nat → List Char → Nat → Bool → List (Nat × Nat)
  | 0, _, _, _ => []
  | _ + 1, [], _, _ => []
  | fuel + 1, c :: rest, i, prevWord =>
    if !prevWord && isDigitChar c && 2 ≤ 1 + (rest.takeWhile isWordChar).length then
      (i, 1 + (rest.takeWhile isWordChar).length) ::
        iiScanF fuel (rest.drop (rest.takeWhile isWordChar).length)
          (i + 1 + (rest.takeWhile isWordChar).length) true
    else iiScanF fuel rest (i + 1) (isWordChar c)

def invalidIdMatches (l : List Char) : List (Nat × Nat) := iiScanF l.length l 0 false

def invalidIdMsg : String := "Identifiers cannot start with a number."

/-- extension.ts 485-498. -/
def checkInvalidIdentifiers (line : List Char) (ln : Nat) : List Diagnostic :=
  (invalidIdMatches line).map (fun (pr : Nat × Nat) =>
    mkDiag ln (pr.1 : Int) ln ((pr.1 : Int) + (pr.2 : Int)) Severity.error invalidIdMsg)

/-! ## Semicolon rule (`checkSemicolonUsage`, extension.ts 500-511) -/

def semiMsg : String := "Semicolon not needed when using Python-style syntax with colons."

/-- extension.ts 500-511. -/
def checkSemicolonUsage (line : List Char) (ln : Nat) : List Diagnostic :=
  if containsSub line [':'] && endsList [';'] (jsTrim line) then
    [mkDiag ln (jsLastIndexOf line [';']) ln (line.length : Int)
      Severity.information semiMsg]
  else []

/-! ## Struct naming rule (`checkStructSyntax`, extension.ts 513-530) -/

def kwStruct : List Char := "struct".data

/-- Match attempt of `/\bstruct\s+(\w+)/` at `i`, returning group 1
(disjoint classes, no backtracking possible). -/
def structMatchAt (l : List Char) (i : Nat) : Option (List Char) :=
  if noWordBefore l i && leadsWith kwStruct (l.drop i) then
    let r1 := l.drop (i + 6)
    let w1 := (r1.takeWhile jsIsWs).length
    if w1 = 0 then none
    else
      let v := (r1.drop w1).takeWhile isWordChar
      if v.length = 0 then none else some v
  else none

def structFirstMatch (l : List Char) : Option (List Char) :=
  (List.range l.length).findSome? (structMatchAt l)

/-- Test of `/^[A-Z][a-zA-Z0-9_]*$/` on `v` (the tail class is exactly `\w`). -/
def isPascalName (v : List Char) : Bool :=
  match v with
  | [] => false
  | c :: cs => ('A' ≤ c && c ≤ 'Z') && cs.all isWordChar

def structMsg : String :=
  "Struct names should start with an uppercase letter and follow PascalCase convention."

/-- extension.ts 513-530 (the method named `checkStructSyntax` in the
source; renamed here only because of lexical restrictions on names). -/
def checkStructRule (line : List Char) (ln : Nat) : List Diagnostic :=
  match structFirstMatch line with
  | some v =>
    if !isPascalName v then
      [mkDiag ln (jsIndexOf line v) ln (jsIndexOf line v + (v.length : Int))
        Severity.warning structMsg]
    else []
  | none => []

/-! ## Auto-property rule (`checkAutoProperties`, extension.ts 532-548) -/

def kwGet : List Char := "get".data

def kwSet : List Char := "set".data

def semiWsChar (c : Char) : Bool := c = ';' || jsIsWs c

/-- Consume a `(get|set)` token (alternation is deterministic: at any
position at most one alternative can match, as the literals differ in
their first character). -/
def gsTok (r : List Char) : Option (List Char) :=
  if leadsWith kwGet r then some (r.drop 3)
  else if leadsWith kwSet r then some (r.drop 3)
  else none

/-- Match attempt of `/\{\s*(get|set)[;\s]*(get|set)?[;\s]*\}/` at `i`.
Every greedy run is maximal by class disjointness (`{`, `}`, `g`, `s` are
not in `[;\s]`), and the optional `(get|set)?` is resolved by the next
character: a `}` ends the block, a `get`/`set` literal must be consumed
(an engine that matched the optional group empty would stall on its `g`/`s`
character), anything else fails. -/
def autoPropAt (l : List Char) (i : Nat) : Bool :=
  l.get? i = some lbrace &&
  (match gsTok ((l.drop (i + 1)).dropWhile jsIsWs) with
   | none => false
   | some r2 =>
     if (r2.dropWhile semiWsChar).head? = some rbrace then true
     else
       match gsTok (r2.dropWhile semiWsChar) with
       | none => false
       | some r4 => (r4.dropWhile semiWsChar).head? = some rbrace)

/-- Test of the auto-property regex anywhere in the line. -/
def autoPropTest (l : List Char) : Bool := (List.range l.length).any (autoPropAt l)

/-- Group 1 of the leftmost match of `/\{\s*([^}]+)\s*\}/` at start
position `i`.  The greedy `\s*` takes the maximal whitespace run `w`; if
the next character is already `}` the engine backtracks `\s*` by exactly
one character so that `([^}]+)` can take it (possible only when `w ≥ 1`);
otherwise `([^}]+)` runs greedily up to the next `}`, which must exist. -/
def braceBlockAt (l : List Char) (i : Nat) : Option (List Char) :=
  if l.get? i = some lbrace then
    let r1 := l.drop (i + 1)
    let w := (r1.takeWhile jsIsWs).length
    if (r1.drop w).head? = some rbrace then
      if 1 ≤ w then some [r1.getD (w - 1) ' '] else none
    else
      let content := (r1.drop w).takeWhile (fun c => !(c = rbrace))
      if ((r1.drop w).drop content.length).head? = some rbrace then some content
      else none
  else none

/-- Group 1 of `line.match(/\{\s*([^}]+)\s*\}/)` (leftmost match). -/
def firstBraceBlock (l : List Char) : Option (List Char) :=
  (List.range l.length).findSome? (braceBlockAt l)

def autoPropMsg : String :=
  "Auto-property must include at least one of \"get\" or \"set\"."

/-- extension.ts 532-548.  Note the emission re-matches the line with
`/\{\s*([^}]+)\s*\}/` — the *first* brace block of the line, which need not
be the block the auto-property pattern found — and anchors the range at the
first `{` and first `}` of the whole line. -/
def checkAutoProperties (line : List Char) (ln : Nat) : List Diagnostic :=
  if autoPropTest line then
    match firstBraceBlock line with
    | some content =>
      if !(containsSub content kwGet) && !(containsSub content kwSet) then
        [mkDiag ln (jsIndexOf line [lbrace]) ln (jsIndexOf line [rbrace] + 1)
          Severity.error autoPropMsg]
      else []
    | none => []
  else []

/-! ## Range operator rule (`checkRangeOperators`, extension.ts 550-570) -/

def dotdotTok : List Char := "..".data

/-- Match attempt of `/(\d+)\.\.(\d+|_)/` at the start of the suffix `s`:
a maximal digit run (shorter runs would put a digit where `\.` is
required), the two dots, then either a maximal digit run or `_` (the
alternation tries `\d+` first).  Returns (group 1, group 2). -/
def rangeMatchHere (s : List Char) : Option (List Char × List Char) :=
  let n1 := s.takeWhile isDigitChar
  if 1 ≤ n1.length && leadsWith dotdotTok (s.drop n1.length) then
    let r2 := s.drop (n1.length + 2)
    let n2 := r2.takeWhile isDigitChar
    if 1 ≤ n2.length then some (n1, n2)
    else if r2.head? = some '_' then some (n1, ['_'])
    else none
  else none

/-- The `exec` loop of the global regex `/(\d+)\.\.(\d+|_)/g`: leftmost
match at or after the current position, then resume past the whole match.
Produces (absolute start index, group 1, group 2); fuel-structural. -/
def rangeScanF : Nat → List Char → Nat → List (Nat × List Char × List Char)
  | 0, _, _ => []
  | _ + 1, [], _ => []
  | fuel + 1, c :: rest, i =>
    match rangeMatchHere (c :: rest) with
    | some (n1, n2) =>
      (i, n1, n2) ::
        rangeScanF fuel ((c :: rest).drop (n1.length + 2 + n2.length))
          (i + n1.length + 2 + n2.length)
    | none => rangeScanF fuel rest (i + 1)

def rangeMatches (l : List Char) : List (Nat × List Char × List Char) :=
  rangeScanF l.length l 0

def rangeMsg : String := "Range start must be less than range end."

/-- extension.ts 550-570: `_` as the upper bound is skipped; otherwise
`parseInt` both bounds and report when `start >= end`. -/
def checkRangeOperators (line : List Char) (ln : Nat) : List Diagnostic :=
  (rangeMatches line).filterMap (fun (t : Nat × List Char × List Char) =>
    if t.2.2 = ['_'] then none
    else if digitsToNat t.2.2 ≤ digitsToNat t.2.1 then
      some (mkDiag ln (t.1 : Int) ln
        ((t.1 : Int) + (t.2.1.length : Int) + 2 + (t.2.2.length : Int))
        Severity.error rangeMsg)
    else none)

/-! ## The with-expression rule (`checkWithExpressions`, extension.ts 572-588) -/

def kwWith : List Char := "with".data

/-- Test of `/\bwith\s*\{/` (same shape as `matchKeywordTest`). -/
def withTest (l : List Char) : Bool :=
  (List.range l.length).any (fun i =>
    noWordBefore l i && leadsWith kwWith (l.drop i) &&
    ((l.drop (i + 4)).dropWhile jsIsWs).head? = some lbrace)

def withMsg : String :=
  "\"with\" expression must be used with an assignment or return statement."

/-- extension.ts 572-588. -/
def checkWithExpressions (line : List Char) (ln : Nat) : List Diagnostic :=
  if withTest line then
    if !(containsSub line ['=']) || leadsWith kwWith (jsTrim line) then
      [mkDiag ln (jsIndexOf line kwWith) ln (jsIndexOf line kwWith + 4)
        Severity.warning withMsg]
    else []
  else []

/-! ## General syntax dispatcher (`checkGeneralSyntax`, extension.ts 426-443) -/

/-- extension.ts 426-443, in source call order (the method named
`checkGeneralSyntax` in the source; renamed here only because of lexical
restrictions on names). -/
def checkGeneralRules (line : List Char) (ln : Nat) : List Diagnostic :=
  checkUnclosedStrings line ln ++
  checkInvalidIdentifiers line ln ++
  checkSemicolonUsage line ln ++
  checkStructRule line ln ++
  checkAutoProperties line ln ++
  checkRangeOperators line ln ++
  checkWithExpressions line ln

/-! ## Document-global bracket balance (`checkMultiLineConstructs`,
extension.ts 590-654) -/

def sumNet (o c : Char) (lines : List (List Char)) : Int :=
  (lines.map (fun l => (countCh o l : Int) - (countCh c l : Int))).sum

def lastLineIdx (lines : List (List Char)) : Nat := lines.length - 1

def lastLineLen (lines : List (List Char)) : Int :=
  ((lines.getD (lastLineIdx lines) []).length : Int)

/-- extension.ts 613-631: a positive net brace count and a negative one are
both reported (if/else-if), anchored at the document's final line. -/
def braceReport (lines : List (List Char)) : List Diagnostic :=
  let b := sumNet lbrace rbrace lines
  if 0 < b then
    [mkDiag (lastLineIdx lines) 0 (lastLineIdx lines) (lastLineLen lines)
      Severity.error (toString b ++ " unclosed brace(s). Missing closing brace '\x7d'.")]
  else if b < 0 then
    [mkDiag (lastLineIdx lines) 0 (lastLineIdx lines) (lastLineLen lines)
      Severity.error (toString b.natAbs ++ " extra closing brace(s).")]
  else []

/-- extension.ts 633-642: only the positive (unclosed) case is reported for
brackets. -/
def bracketReport (lines : List (List Char)) : List Diagnostic :=
  let k := sumNet '[' ']' lines
  if 0 < k then
    [mkDiag (lastLineIdx lines) 0 (lastLineIdx lines) (lastLineLen lines)
      Severity.error (toString k ++ " unclosed bracket(s). Missing closing bracket ']'.")]
  else []

/-- extension.ts 644-653: only the positive (unclosed) case is reported for
parentheses. -/
def parenReport (lines : List (List Char)) : List Diagnostic :=
  let p := sumNet '(' ')' lines
  if 0 < p then
    [mkDiag (lastLineIdx lines) 0 (lastLineIdx lines) (lastLineLen lines)
      Severity.error
      (toString p ++ " unclosed parenthesis(es). Missing closing parenthesis ')'.")]
  else []

/-- extension.ts 590-654. -/
def checkMultiLineConstructs (lines : List (List Char)) : List Diagnostic :=
  braceReport lines ++ bracketReport lines ++ parenReport lines

/-! ## One scan session (`updateDiagnostics`, extension.ts 212-243) -/

/-- All per-line rules for one line, in the call order of extension.ts
228-235. -/
def lineDiags (lines : List (List Char)) (ln : Nat) (line : List Char) :
    List Diagnostic :=
  checkPipelineOperators line ln ++
  checkMatchExpressions line ln lines ++
  checkLinqQueries line ln ++
  checkOperatorOverloading line ln ++
  checkFunctionRule line ln ++
  checkBracesAndIndentation line ln ++
  checkGeneralRules line ln

/-- The line loop of extension.ts 224-236. -/
def lineLoop (all : List (List Char)) : List (List Char) → Nat → List Diagnostic
  | [], _ => []
  | l :: rest, i => lineDiags all i l ++ lineLoop all rest (i + 1)

/-- The full scan of one document (the body of `updateDiagnostics` after
the enabled-check): per-line rules over every line, then the document-global
rule. -/
def scan (lines : List (List Char)) : List Diagnostic :=
  lineLoop lines lines 0 ++ checkMultiLineConstructs lines

/-! ## Diagnostic collection and configuration (extension.ts 212-243) -/

/-- The configuration flags `updateDiagnostics` and its callers read. -/
structure ScanConfig where
  diagnosticsEnabled : Bool
  checkOnType : Bool

/-- The diagnostic collection: document identity (URI) to stored list. -/
abbrev DiagCollection := List (String × List Diagnostic)

def collSet (coll : DiagCollection) (uri : String) (ds : List Diagnostic) :
    DiagCollection :=
  match coll with
  | [] => [(uri, ds)]
  | (u, old) :: rest =>
    if u = uri then (uri, ds) :: rest else (u, old) :: collSet rest uri ds

def collGet (coll : DiagCollection) (uri : String) : Option (List Diagnostic) :=
  match coll with
  | [] => none
  | (u, ds) :: rest => if u = uri then some ds else collGet rest uri

/-- extension.ts 212-243: return immediately when diagnostics are disabled
(before touching the collection); otherwise scan and replace the document's
stored list. -/
def updateDiagnostics (cfg : ScanConfig) (uri : String)
    (docLines : List (List Char)) (coll : DiagCollection) : DiagCollection :=
  if !cfg.diagnosticsEnabled then coll
  else collSet coll uri (scan docLines)

/-! ## Range-bound predicates used by the invariant claim -/

/-- Columns of `d` lie within line `line` (as offsets `0 ≤ col ≤ length`). -/
def ColOk (line : List Char) (d : Diagnostic) : Prop :=
  0 ≤ d.startCol ∧ d.startCol ≤ (line.length : Int) ∧
  0 ≤ d.endCol ∧ d.endCol ≤ (line.length : Int)

/-- Both ends of `d` name line `ln`. -/
def LineOk (ln : Nat) (d : Diagnostic) : Prop :=
  d.startLine = ln ∧ d.endLine = ln

/-- The bounds invariant of the specification, for one diagnostic against
the document it was produced from. -/
def diagInBounds (lines : List (List Char)) (d : Diagnostic) : Prop :=
  d.startLine ≤ d.endLine ∧ d.endLine < lines.length ∧
  0 ≤ d.startCol ∧ d.startCol ≤ ((lines.getD d.startLine []).length : Int) ∧
  0 ≤ d.endCol ∧ d.endCol ≤ ((lines.getD d.endLine []).length : Int)

instance (lines : List (List Char)) (d : Diagnostic) :
    Decidable (diagInBounds lines d) := by
  unfold diagInBounds
  infer_instance

def c1BadDoc : List (List Char) := [['\t', ' ']]

def c1WitnessDoc : List (List Char) := [("a | b\x7b").data]

/-! ## Claim C2: the per-position pipeline rule -/

def c2TrailLine : List Char := "x|".data

/-- True exactly when every `|` of the line that has a following character is
immediately followed by `>` (the line uses only well-formed `|>`). -/
def noBadPipe (line : List Char) : Bool :=
  (List.range line.length).all (fun p =>
    !(decide (p + 1 < line.length)) || !(line.getD p ' ' = '|') ||
      (line.getD (p + 1) ' ' = '>'))

/-! ## Claim C3: the empty-pattern match-arm error -/

def c3Line : List Char := " => 1".data

/-! ## Claim C4: the incomplete-arrow scenario -/

def c4Line : List Char := "let incomplete = () => ;".data

def c4FixedLine : List Char := "let incomplete = () =>".data

/-! ## Claim C5: match-closure forward scan -/

/-- The running `{`-minus-`}` count accumulated from the end of line `a`
through the end of line `b` (inclusive), the claim's "running count". -/
def sumNetRange (lines : List (List Char)) (a b : Nat) : Int :=
  (((lines.drop a).take (b + 1 - a)).map netBraces).sum

/-- The claim's closing condition: the running count accumulated from line
`start` returns to zero at the end of some strictly later line of the
document. -/
def returnsToZero (lines : List (List Char)) (start : Nat) : Bool :=
  (List.range lines.length).any (fun i =>
    decide (start < i) && decide (sumNetRange lines start i = 0))

def c5Line : List Char := "match \x7b\x7d".data

def c5WitDoc : List (List Char) := [("match \x7b").data, ['x']]

/-! ## Claim C6: auto-property validation -/

def c6Line : List Char := "\x7bx\x7d \x7b get; \x7d".data

def gsBlockLit : List Char := "\x7b get; \x7d".data

def c7Line : List Char := "5..4..3".data

def c7Tok : List Char := "4..3".data

def c7WitTok : Nat × List Char × List Char := (0, "10".data, "1".data)

def c7WitLine : List Char := "10..1".data

/-! ## Claim C8: document-global bracket balance -/

def sumCount (ch : Char) (lines : List (List Char)) : Nat :=
  (lines.map (countCh ch)).sum

/-- The claim's anchoring condition for the document-global reports:
reported once, anchored at the document's final line. -/
def anchoredLast (lines : List (List Char)) (d : Diagnostic) : Prop :=
  d.startLine = lastLineIdx lines ∧ d.endLine = lastLineIdx lines ∧
  d.startCol = 0 ∧ d.endCol = lastLineLen lines ∧ d.severity = Severity.error

def c8WitDoc : List (List Char) := [("()".data)]

def c9WitCfg : ScanConfig := ⟨false, true⟩

def c9WitColl : DiagCollection :=
  [("file.csc", [mkDiag 0 0 0 1 Severity.error pipeErrMsg])]

/-- A standalone run of digits in a line: `len` digit characters starting
at `p`, delimited on the left by the line start or a non-word character and
on the right by the line end or a non-word character (the claim's
"standalone run of digits", e.g. a numeric literal or a range bound). -/
def standaloneDigitRun (line : List Char) (p len : Nat) : Prop :=
  1 ≤ len ∧ p + len ≤ line.length ∧
  (∀ k ∈ List.range len, isDigitChar (line.getD (p + k) ' ') = true) ∧
  (p = 0 ∨ isWordChar (line.getD (p - 1) ' ') = false) ∧
  (line.length ≤ p + len ∨ isWordChar (line.getD (p + len) ' ') = false)

instance (line : List Char) (p len : Nat) :
    Decidable (standaloneDigitRun line p len) := by
  unfold standaloneDigitRun
  infer_instance

def c10Line : List Char := "1..10".data

/-! ## Lemmas and claim theorems -/

/-! ## Generic lemmas about the string helpers -/

theorem leadsWith_iff : ∀ (p l : List Char), leadsWith p l = true ↔ p <+: l
  | [], l => by simp [leadsWith]
  | c :: ps, [] => by simp [leadsWith]
  | c :: ps, d :: ds => by
    simp [leadsWith, List.cons_prefix_cons, leadsWith_iff ps ds]

theorem leadsWith_length {p l : List Char} (h : leadsWith p l = true) :
    p.length ≤ l.length :=
  ((leadsWith_iff p l).1 h).length_le

theorem mem_occList {pat l : List Char} {i : Nat} :
    i ∈ occList pat l ↔ i < l.length ∧ leadsWith pat (l.drop i) = true := by
  simp [occList, List.mem_filter, List.mem_range]

theorem occList_add_le {pat l : List Char} {i : Nat} (h : i ∈ occList pat l) :
    i + pat.length ≤ l.length := by
  rcases mem_occList.1 h with ⟨h1, h2⟩
  have h3 := leadsWith_length h2
  rw [List.length_drop] at h3
  omega

theorem occList_nonempty {pat l : List Char} {i : Nat} (h1 : i < l.length)
    (h2 : leadsWith pat (l.drop i) = true) : occList pat l ≠ [] := by
  intro h
  exact absurd (mem_occList.2 ⟨h1, h2⟩) (by simp [h])

theorem occList_of_infix {pat l : List Char} (hne : pat ≠ []) (h : pat <:+: l) :
    occList pat l ≠ [] := by
  rcases h with ⟨s, t, rfl⟩
  have hp : 1 ≤ pat.length := by
    cases pat
    · exact absurd rfl hne
    · simp
  apply occList_nonempty (i := s.length)
  · simp only [List.length_append]
    omega
  · rw [leadsWith_iff, List.append_assoc, List.drop_left]
    exact List.prefix_append pat t

theorem occList_singleton_of_mem {c : Char} {l : List Char} (h : c ∈ l) :
    occList [c] l ≠ [] := by
  rcases List.append_of_mem h with ⟨s, t, rfl⟩
  exact occList_of_infix (by simp) ⟨s, t, by simp⟩

theorem jsIndexOf_bounds {l pat : List Char} (h : occList pat l ≠ []) :
    0 ≤ jsIndexOf l pat ∧ jsIndexOf l pat + (pat.length : Int) ≤ (l.length : Int) := by
  unfold jsIndexOf
  cases hc : occList pat l with
  | nil => exact absurd hc h
  | cons i t =>
    have hi : i ∈ occList pat l := by
      rw [hc]
      exact List.mem_cons_self i t
    have h2 := occList_add_le hi
    constructor
    · positivity
    · push_cast
      omega

theorem jsLastIndexOf_bounds {l pat : List Char} (h : occList pat l ≠ []) :
    0 ≤ jsLastIndexOf l pat ∧
    jsLastIndexOf l pat + (pat.length : Int) ≤ (l.length : Int) := by
  unfold jsLastIndexOf
  cases hc : (occList pat l).getLast? with
  | none =>
    rw [List.getLast?_eq_none_iff] at hc
    exact absurd hc h
  | some i =>
    have hi : i ∈ occList pat l := List.mem_of_mem_getLast? hc
    have h2 := occList_add_le hi
    constructor
    · positivity
    · push_cast
      omega

theorem endsList_iff {s l : List Char} : endsList s l = true ↔ s <:+ l := by
  unfold endsList
  rw [leadsWith_iff, List.reverse_prefix]

theorem trimEndLeads (l : List Char) : trimEnd l <+: l := by
  unfold trimEnd
  rw [← List.reverse_suffix, List.reverse_reverse]
  exact List.dropWhile_suffix jsIsWs

theorem jsTrimWithin (l : List Char) : jsTrim l <:+: l := by
  unfold jsTrim
  exact (trimEndLeads (l.dropWhile jsIsWs)).isInfix.trans
    (List.dropWhile_suffix jsIsWs).isInfix

theorem suffix_of_jsTrim_ends {s l : List Char} (hne : s ≠ [])
    (h : endsList s (jsTrim l) = true) : occList s l ≠ [] :=
  occList_of_infix hne ((endsList_iff.1 h).isInfix.trans (jsTrimWithin l))

theorem suffix_of_trimEnd_ends {s l : List Char} (hne : s ≠ [])
    (h : endsList s (trimEnd l) = true) : occList s l ≠ [] :=
  occList_of_infix hne ((endsList_iff.1 h).isInfix.trans (trimEndLeads l).isInfix)

theorem searchNonWs_bounds {l : List Char} (h : l.any (fun c => !jsIsWs c) = true) :
    0 ≤ searchNonWs l ∧ searchNonWs l < (l.length : Int) := by
  rcases List.any_eq_true.1 h with ⟨c, hc, hpred⟩
  rcases List.mem_iff_getElem.1 hc with ⟨i, hlen, rfl⟩
  have hmem : i ∈ (List.range l.length).filter (fun i => !jsIsWs (l.getD i ' ')) := by
    rw [List.mem_filter, List.mem_range]
    refine ⟨hlen, ?_⟩
    rwa [List.getD_eq_getElem l ' ' hlen]
  unfold searchNonWs
  cases hcase : (List.range l.length).filter (fun i => !jsIsWs (l.getD i ' ')) with
  | nil =>
    rw [hcase] at hmem
    simp at hmem
  | cons j t =>
    have hj : j ∈ (List.range l.length).filter (fun i => !jsIsWs (l.getD i ' ')) := by
      rw [hcase]
      exact List.mem_cons_self j t
    have hjr := (List.mem_filter.1 hj).1
    rw [List.mem_range] at hjr
    refine ⟨by positivity, ?_⟩
    show (j : Int) < (l.length : Int)
    exact_mod_cast hjr

theorem getD_drop (L : List Char) (n k : Nat) (d : Char) :
    (L.drop n).getD k d = L.getD (n + k) d := by
  simp [List.getD_eq_getElem?_getD, List.getElem?_drop]

theorem isWordChar_of_isDigitChar {c : Char} (h : isDigitChar c = true) :
    isWordChar c = true := by
  unfold isDigitChar at h
  unfold isWordChar
  simp only [Bool.or_eq_true, Bool.and_eq_true, decide_eq_true_eq] at h ⊢
  tauto

/-! ## Lemmas on the pipeline scanner -/

theorem pipelineMatches_bound :
    ∀ (l : List Char) (i0 : Nat), ∀ j ∈ pipelineMatches l i0,
      i0 ≤ j ∧ j + 2 ≤ i0 + l.length
  | [], i0 => by simp [pipelineMatches]
  | [c], i0 => by simp [pipelineMatches]
  | c :: d :: rest, i0 => by
    intro j hj
    rw [pipelineMatches] at hj
    split at hj
    · rcases List.mem_cons.1 hj with rfl | hj2
      · simp only [List.length_cons]
        omega
      · have h := pipelineMatches_bound rest (i0 + 2) j hj2
        simp only [List.length_cons]
        omega
    · have h := pipelineMatches_bound (d :: rest) (i0 + 1) j hj
      simp only [List.length_cons] at h ⊢
      omega

theorem pipelineMatches_char (L : List Char) :
    ∀ (l : List Char) (i0 : Nat), l = L.drop i0 → ∀ j ∈ pipelineMatches l i0,
      L.getD j ' ' = '|' ∧ ¬(L.getD (j + 1) ' ' = '>') ∧ j + 2 ≤ L.length
  | [], i0 => by simp [pipelineMatches]
  | [c], i0 => by simp [pipelineMatches]
  | c :: d :: rest, i0 => by
    intro hL j hj
    have hlen : i0 + (2 + rest.length) ≤ L.length := by
      have := congrArg List.length hL
      simp only [List.length_cons, List.length_drop] at this
      omega
    have hc : L.getD i0 ' ' = c := by
      rw [← Nat.add_zero i0, ← getD_drop, ← hL]
      rfl
    have hd : L.getD (i0 + 1) ' ' = d := by
      rw [← getD_drop, ← hL]
      rfl
    have hrest : rest = L.drop (i0 + 2) := by
      rw [← List.drop_drop, ← hL]
      rfl
    have hdrest : d :: rest = L.drop (i0 + 1) := by
      rw [← List.drop_drop, ← hL]
      rfl
    rw [pipelineMatches] at hj
    split at hj
    · rename_i hcond
      simp only [Bool.and_eq_true, Bool.not_eq_true', decide_eq_true_eq] at hcond
      rcases List.mem_cons.1 hj with rfl | hj2
      · refine ⟨by rw [hc]; exact hcond.1, ?_, by omega⟩
        rw [hd]
        simp only [decide_eq_false_iff_not] at hcond
        intro h
        exact absurd h (by simpa using hcond.2)
      · exact pipelineMatches_char L rest (i0 + 2) hrest j hj2
    · exact pipelineMatches_char L (d :: rest) (i0 + 1) hdrest j hj

theorem pipelineMatches_nil (L : List Char)
    (hall : ∀ p, p + 1 < L.length → L.getD p ' ' = '|' → L.getD (p + 1) ' ' = '>') :
    ∀ (l : List Char) (i0 : Nat), l = L.drop i0 → pipelineMatches l i0 = []
  | [], i0 => by simp [pipelineMatches]
  | [c], i0 => by simp [pipelineMatches]
  | c :: d :: rest, i0 => by
    intro hL
    have hlen : i0 + (2 + rest.length) ≤ L.length := by
      have := congrArg List.length hL
      simp only [List.length_cons, List.length_drop] at this
      omega
    have hc : L.getD i0 ' ' = c := by
      rw [← Nat.add_zero i0, ← getD_drop, ← hL]
      rfl
    have hd : L.getD (i0 + 1) ' ' = d := by
      rw [← getD_drop, ← hL]
      rfl
    have hdrest : d :: rest = L.drop (i0 + 1) := by
      rw [← List.drop_drop, ← hL]
      rfl
    have hcond : ¬(c = '|' && !(d = '>')) = true := by
      simp only [Bool.and_eq_true, Bool.not_eq_true', decide_eq_true_eq]
      rintro ⟨rfl, h2⟩
      have := hall i0 (by omega) hc
      rw [hd] at this
      simp [this] at h2
    rw [pipelineMatches, if_neg hcond]
    exact pipelineMatches_nil L hall (d :: rest) (i0 + 1) hdrest

/-! ## Per-rule range-bound lemmas -/

theorem checkPipelineOperators_bounds (line : List Char) (ln : Nat) :
    ∀ d ∈ checkPipelineOperators line ln, LineOk ln d ∧ ColOk line d := by
  intro d hd
  unfold checkPipelineOperators at hd
  rcases List.mem_append.1 hd with hd1 | hd2
  · rcases List.mem_map.1 hd1 with ⟨i, hi, rfl⟩
    have hb := pipelineMatches_bound line 0 i hi
    refine ⟨⟨rfl, rfl⟩, ?_⟩
    simp only [ColOk, mkDiag]
    omega
  · split at hd2
    · rename_i hguard
      rcases List.mem_singleton.1 hd2 with rfl
      have hocc := suffix_of_jsTrim_ends (by simp [pipeGt]) hguard
      have hb := jsLastIndexOf_bounds hocc
      refine ⟨⟨rfl, rfl⟩, ?_⟩
      simp only [ColOk, mkDiag]
      have hlen : (pipeGt.length : Int) = 2 := by simp [pipeGt]
      rw [hlen] at hb
      refine ⟨hb.1, by omega, by positivity, le_refl _⟩
    · simp at hd2

theorem test_occ_of_any {l pat : List Char} {f : Nat → Bool}
    (hf : ∀ i, f i = true → leadsWith pat (l.drop i) = true)
    (h : (List.range l.length).any f = true) : occList pat l ≠ [] := by
  rcases List.any_eq_true.1 h with ⟨i, hir, hfi⟩
  rw [List.mem_range] at hir
  exact occList_nonempty hir (hf i hfi)

theorem matchKeywordTest_occ {l : List Char} (h : matchKeywordTest l = true) :
    occList kwMatch l ≠ [] := by
  refine test_occ_of_any ?_ h
  intro i hi
  simp only [Bool.and_eq_true] at hi
  exact hi.1.2

theorem withTest_occ {l : List Char} (h : withTest l = true) :
    occList kwWith l ≠ [] := by
  refine test_occ_of_any ?_ h
  intro i hi
  simp only [Bool.and_eq_true] at hi
  exact hi.1.2

theorem wordOcc_occ {l pat : List Char} (h : wordOcc l pat = true) :
    occList pat l ≠ [] := by
  refine test_occ_of_any ?_ h
  intro i hi
  simp only [Bool.and_eq_true] at hi
  exact hi.1.2

theorem occ_of_takeWhile_dropdrop {l : List Char} {a b : Nat} {p : Char → Bool}
    (hne : ((l.drop a).drop b).takeWhile p ≠ []) :
    occList (((l.drop a).drop b).takeWhile p) l ≠ [] :=
  occList_of_infix hne ((List.takeWhile_prefix p).isInfix.trans
    (((List.drop_suffix b (l.drop a)).trans (List.drop_suffix a l)).isInfix))

theorem checkMatchClosure_bounds (line : List Char) (ln : Nat)
    (lines : List (List Char)) :
    ∀ d ∈ checkMatchClosure line ln lines, LineOk ln d ∧ ColOk line d := by
  intro d hd
  unfold checkMatchClosure at hd
  split at hd
  · rename_i hkw
    split at hd
    · simp at hd
    · rcases List.mem_singleton.1 hd with rfl
      have hb := jsIndexOf_bounds (matchKeywordTest_occ hkw)
      have h5 : (kwMatch.length : Int) = 5 := by simp [kwMatch]
      rw [h5] at hb
      refine ⟨⟨rfl, rfl⟩, ?_⟩
      simp only [ColOk, mkDiag]
      omega
  · simp at hd

theorem checkMatchArm_bounds (line : List Char) (ln : Nat) :
    ∀ d ∈ checkMatchArm line ln, LineOk ln d ∧ ColOk line d := by
  intro d hd
  unfold checkMatchArm at hd
  split at hd
  · split at hd
    · split at hd
      · rcases List.mem_singleton.1 hd with rfl
        refine ⟨⟨rfl, rfl⟩, ?_⟩
        simp only [ColOk, mkDiag]
        omega
      · simp at hd
    · simp at hd
  · simp at hd

theorem checkMatchExpressions_bounds (line : List Char) (ln : Nat)
    (lines : List (List Char)) :
    ∀ d ∈ checkMatchExpressions line ln lines, LineOk ln d ∧ ColOk line d := by
  intro d hd
  rcases List.mem_append.1 hd with h | h
  · exact checkMatchClosure_bounds line ln lines d h
  · exact checkMatchArm_bounds line ln d h

theorem linqFromVar_occ {l v : List Char} (h : linqFromVar l = some v) :
    v ≠ [] ∧ occList v l ≠ [] := by
  rcases List.exists_of_findSome?_eq_some h with ⟨i, _hi, hAt⟩
  simp only [linqVarAt] at hAt
  split_ifs at hAt with h1 h2 h3 h4 h5
  · rcases Option.some.inj hAt with rfl
    have hne : ((l.drop (i + 4)).drop ((l.drop (i + 4)).takeWhile jsIsWs).length).takeWhile
        isWordChar ≠ [] := by
      intro hc
      rw [hc] at h3
      simp at h3
    exact ⟨hne, occ_of_takeWhile_dropdrop hne⟩

theorem checkLinqQueries_bounds (line : List Char) (ln : Nat) :
    ∀ d ∈ checkLinqQueries line ln, LineOk ln d ∧ ColOk line d := by
  intro d hd
  unfold checkLinqQueries at hd
  rcases List.mem_append.1 hd with h | h
  · split at h
    · rename_i v hv
      split at h
      · rcases List.mem_singleton.1 h with rfl
        have hb := jsIndexOf_bounds (linqFromVar_occ hv).2
        refine ⟨⟨rfl, rfl⟩, ?_⟩
        simp only [ColOk, mkDiag]
        omega
      · simp at h
    · simp at h
  · split at h
    · rename_i hg
      rw [Bool.and_eq_true] at hg
      rcases List.mem_singleton.1 h with rfl
      have hb := jsIndexOf_bounds (wordOcc_occ hg.1)
      have h4 : (kwFrom.length : Int) = 4 := by simp [kwFrom]
      rw [h4] at hb
      refine ⟨⟨rfl, rfl⟩, ?_⟩
      simp only [ColOk, mkDiag]
      omega
    · simp at h

theorem opFirstMatch_occ {l op : List Char} (h : opFirstMatch l = some op) :
    op ≠ [] ∧ occList op l ≠ [] := by
  rcases List.exists_of_findSome?_eq_some h with ⟨i, _hi, hAt⟩
  simp only [opMatchAt] at hAt
  split_ifs at hAt with h1 h2 h3 h4
  · rcases Option.some.inj hAt with rfl
    have hne : ((l.drop (i + 8)).drop ((l.drop (i + 8)).takeWhile jsIsWs).length).takeWhile
        isOpChar ≠ [] := by
      intro hc
      rw [hc] at h3
      simp at h3
    exact ⟨hne, occ_of_takeWhile_dropdrop hne⟩

theorem checkOperatorOverloading_bounds (line : List Char) (ln : Nat) :
    ∀ d ∈ checkOperatorOverloading line ln, LineOk ln d ∧ ColOk line d := by
  intro d hd
  unfold checkOperatorOverloading at hd
  split at hd
  · rename_i op hop
    split at hd
    · rcases List.mem_singleton.1 hd with rfl
      have hb := jsIndexOf_bounds (opFirstMatch_occ hop).2
      refine ⟨⟨rfl, rfl⟩, ?_⟩
      simp only [ColOk, mkDiag]
      omega
    · simp at hd
  · simp at hd

theorem fnFirstMatch_occ {l v : List Char} (h : fnFirstMatch l = some v) :
    v ≠ [] ∧ occList v l ≠ [] := by
  rcases List.exists_of_findSome?_eq_some h with ⟨i, _hi, hAt⟩
  simp only [fnMatchAt] at hAt
  split_ifs at hAt with h1 h2 h3 h4
  · rcases Option.some.inj hAt with rfl
    have hne : ((l.drop (i + 8)).drop ((l.drop (i + 8)).takeWhile jsIsWs).length).takeWhile
        isWordChar ≠ [] := by
      intro hc
      rw [hc] at h3
      simp at h3
    exact ⟨hne, occ_of_takeWhile_dropdrop hne⟩

theorem checkFunctionRule_bounds (line : List Char) (ln : Nat) :
    ∀ d ∈ checkFunctionRule line ln, LineOk ln d ∧ ColOk line d := by
  intro d hd
  unfold checkFunctionRule at hd
  rcases List.mem_append.1 hd with h | h
  · split at h
    · rename_i v hv
      split at h
      · rcases List.mem_singleton.1 h with rfl
        have hb := jsIndexOf_bounds (fnFirstMatch_occ hv).2
        refine ⟨⟨rfl, rfl⟩, ?_⟩
        simp only [ColOk, mkDiag]
        omega
      · simp at h
    · simp at h
  · split at h
    · rename_i hg
      rcases List.mem_singleton.1 h with rfl
      have hb := jsLastIndexOf_bounds (suffix_of_trimEnd_ends (by simp [arrowTok]) hg)
      have h2 : (arrowTok.length : Int) = 2 := by simp [arrowTok]
      rw [h2] at hb
      refine ⟨⟨rfl, rfl⟩, ?_⟩
      simp only [ColOk, mkDiag]
      omega
    · simp at h

theorem checkBracesAndIndentation_bounds (line : List Char) (ln : Nat)
    (hnz : mixedIndent line = true → line.any (fun c => !jsIsWs c) = true) :
    ∀ d ∈ checkBracesAndIndentation line ln, LineOk ln d ∧ ColOk line d := by
  intro d hd
  unfold checkBracesAndIndentation at hd
  split at hd
  · rename_i hm
    rcases List.mem_singleton.1 hd with rfl
    have hb := searchNonWs_bounds (hnz hm)
    refine ⟨⟨rfl, rfl⟩, ?_⟩
    simp only [ColOk, mkDiag]
    omega
  · simp at hd

theorem checkUnclosedStrings_bounds (line : List Char) (ln : Nat) :
    ∀ d ∈ checkUnclosedStrings line ln, LineOk ln d ∧ ColOk line d := by
  intro d hd
  simp only [checkUnclosedStrings] at hd
  split at hd
  · rcases List.mem_singleton.1 hd with rfl
    refine ⟨⟨rfl, rfl⟩, ?_⟩
    simp only [ColOk, mkDiag]
    omega
  · simp at hd

theorem checkSemicolonUsage_bounds (line : List Char) (ln : Nat) :
    ∀ d ∈ checkSemicolonUsage line ln, LineOk ln d ∧ ColOk line d := by
  intro d hd
  unfold checkSemicolonUsage at hd
  split at hd
  · rename_i hg
    rw [Bool.and_eq_true] at hg
    rcases List.mem_singleton.1 hd with rfl
    have hb := jsLastIndexOf_bounds (suffix_of_jsTrim_ends (by simp) hg.2)
    have h1 : (([';'] : List Char).length : Int) = 1 := by simp
    rw [h1] at hb
    refine ⟨⟨rfl, rfl⟩, ?_⟩
    simp only [ColOk, mkDiag]
    omega
  · simp at hd

theorem structFirstMatch_occ {l v : List Char} (h : structFirstMatch l = some v) :
    v ≠ [] ∧ occList v l ≠ [] := by
  rcases List.exists_of_findSome?_eq_some h with ⟨i, _hi, hAt⟩
  simp only [structMatchAt] at hAt
  split_ifs at hAt with h1 h2 h3
  · rcases Option.some.inj hAt with rfl
    have hne : ((l.drop (i + 6)).drop ((l.drop (i + 6)).takeWhile jsIsWs).length).takeWhile
        isWordChar ≠ [] := by
      intro hc
      rw [hc] at h3
      simp at h3
    exact ⟨hne, occ_of_takeWhile_dropdrop hne⟩

theorem checkStructRule_bounds (line : List Char) (ln : Nat) :
    ∀ d ∈ checkStructRule line ln, LineOk ln d ∧ ColOk line d := by
  intro d hd
  unfold checkStructRule at hd
  split at hd
  · rename_i v hv
    split at hd
    · rcases List.mem_singleton.1 hd with rfl
      have hb := jsIndexOf_bounds (structFirstMatch_occ hv).2
      refine ⟨⟨rfl, rfl⟩, ?_⟩
      simp only [ColOk, mkDiag]
      omega
    · simp at hd
  · simp at hd

theorem checkWithExpressions_bounds (line : List Char) (ln : Nat) :
    ∀ d ∈ checkWithExpressions line ln, LineOk ln d ∧ ColOk line d := by
  intro d hd
  unfold checkWithExpressions at hd
  split at hd
  · rename_i hg
    split at hd
    · rcases List.mem_singleton.1 hd with rfl
      have hb := jsIndexOf_bounds (withTest_occ hg)
      have h4 : (kwWith.length : Int) = 4 := by simp [kwWith]
      rw [h4] at hb
      refine ⟨⟨rfl, rfl⟩, ?_⟩
      simp only [ColOk, mkDiag]
      omega
    · simp at hd
  · simp at hd

theorem gsTok_sublist {r r2 : List Char} (h : gsTok r = some r2) : r2.Sublist r := by
  unfold gsTok at h
  split_ifs at h
  · rcases Option.some.inj h with rfl
    exact List.drop_sublist 3 r
  · rcases Option.some.inj h with rfl
    exact List.drop_sublist 3 r

theorem autoPropTest_occ {l : List Char} (h : autoPropTest l = true) :
    occList [lbrace] l ≠ [] ∧ occList [rbrace] l ≠ [] := by
  rcases List.any_eq_true.1 h with ⟨i, _hir, hAt⟩
  unfold autoPropAt at hAt
  rw [Bool.and_eq_true] at hAt
  obtain ⟨h1, h2⟩ := hAt
  rw [decide_eq_true_eq] at h1
  have hlb : lbrace ∈ l := List.get?_mem h1
  refine ⟨occList_singleton_of_mem hlb, ?_⟩
  have hrb : rbrace ∈ l := by
    split at h2
    · exact absurd h2 (by simp)
    · rename_i r2 hg
      have hsub2 : r2.Sublist l :=
        (gsTok_sublist hg).trans ((List.dropWhile_sublist jsIsWs).trans
          (List.drop_sublist (i + 1) l))
      split at h2
      · rename_i hhead
        have hm : rbrace ∈ r2.dropWhile semiWsChar := List.mem_of_mem_head? hhead
        exact List.Sublist.mem hm ((List.dropWhile_sublist semiWsChar).trans hsub2)
      · split at h2
        · exact absurd h2 (by simp)
        · rename_i r4 hg4
          rw [decide_eq_true_eq] at h2
          have hm : rbrace ∈ r4.dropWhile semiWsChar := List.mem_of_mem_head? h2
          exact List.Sublist.mem hm ((List.dropWhile_sublist semiWsChar).trans
            ((gsTok_sublist hg4).trans
              ((List.dropWhile_sublist semiWsChar).trans hsub2)))
  exact occList_singleton_of_mem hrb

theorem checkAutoProperties_bounds (line : List Char) (ln : Nat) :
    ∀ d ∈ checkAutoProperties line ln, LineOk ln d ∧ ColOk line d := by
  intro d hd
  unfold checkAutoProperties at hd
  split at hd
  · rename_i hg
    split at hd
    · split at hd
      · rcases List.mem_singleton.1 hd with rfl
        obtain ⟨ho, hc⟩ := autoPropTest_occ hg
        have hbo := jsIndexOf_bounds ho
        have hbc := jsIndexOf_bounds hc
        have h1 : (([lbrace] : List Char).length : Int) = 1 := by simp
        have h1c : (([rbrace] : List Char).length : Int) = 1 := by simp
        rw [h1] at hbo
        rw [h1c] at hbc
        refine ⟨⟨rfl, rfl⟩, ?_⟩
        simp only [ColOk, mkDiag]
        omega
      · simp at hd
    · simp at hd
  · simp at hd

theorem rangeMatchHere_len {s n1 n2 : List Char}
    (h : rangeMatchHere s = some (n1, n2)) :
    1 ≤ n1.length ∧ 1 ≤ n2.length ∧ n1.length + 2 + n2.length ≤ s.length := by
  simp only [rangeMatchHere] at h
  split_ifs at h with h1 h2 h3
  · rw [Bool.and_eq_true] at h1
    rcases Option.some.inj h with h'
    rcases Prod.mk.injEq .. ▸ h' with ⟨rfl, rfl⟩
    have hd1 : 1 ≤ (s.takeWhile isDigitChar).length := by
      rcases h1 with ⟨ha, _⟩
      rwa [decide_eq_true_eq] at ha
    have hdots := leadsWith_length h1.2
    rw [List.length_drop] at hdots
    have hdd : dotdotTok.length = 2 := by simp [dotdotTok]
    rw [hdd] at hdots
    have hn2 : ((s.drop ((s.takeWhile isDigitChar).length + 2)).takeWhile
        isDigitChar).length ≤ s.length - ((s.takeWhile isDigitChar).length + 2) := by
      have hx := (List.takeWhile_prefix (l := s.drop ((s.takeWhile isDigitChar).length + 2))
        isDigitChar).length_le
      rwa [List.length_drop] at hx
    omega
  · rw [Bool.and_eq_true] at h1
    rcases Option.some.inj h with h'
    rcases Prod.mk.injEq .. ▸ h' with ⟨rfl, rfl⟩
    have hd1 : 1 ≤ (s.takeWhile isDigitChar).length := by
      rcases h1 with ⟨ha, _⟩
      rwa [decide_eq_true_eq] at ha
    have hdots := leadsWith_length h1.2
    rw [List.length_drop] at hdots
    have hdd : dotdotTok.length = 2 := by simp [dotdotTok]
    rw [hdd] at hdots
    have hr2 : s.drop ((s.takeWhile isDigitChar).length + 2) ≠ [] := by
      intro hc
      rw [hc] at h3
      simp at h3
    have : 1 ≤ (s.drop ((s.takeWhile isDigitChar).length + 2)).length := by
      cases hcc : s.drop ((s.takeWhile isDigitChar).length + 2) with
      | nil => exact absurd hcc hr2
      | cons a t => simp
    rw [List.length_drop] at this
    simp only [List.length_singleton]
    omega

theorem rangeScanF_bound :
    ∀ (fuel : Nat) (l : List Char) (i : Nat), ∀ t ∈ rangeScanF fuel l i,
      i ≤ t.1 ∧ t.1 + t.2.1.length + 2 + t.2.2.length ≤ i + l.length
  | 0, l, i => by simp [rangeScanF]
  | fuel + 1, [], i => by simp [rangeScanF]
  | fuel + 1, c :: rest, i => by
    intro t ht
    rw [rangeScanF] at ht
    split at ht
    · rename_i n1 n2 hm
      have hlen := rangeMatchHere_len hm
      rcases List.mem_cons.1 ht with rfl | ht2
      · show i ≤ i ∧ i + n1.length + 2 + n2.length ≤ i + (c :: rest).length
        simp only [List.length_cons] at hlen ⊢
        omega
      · have hb := rangeScanF_bound fuel ((c :: rest).drop (n1.length + 2 + n2.length))
          (i + n1.length + 2 + n2.length) t ht2
        rw [List.length_drop] at hb
        simp only [List.length_cons] at hlen hb ⊢
        omega
    · have hb := rangeScanF_bound fuel rest (i + 1) t ht
      simp only [List.length_cons]
      omega

theorem checkRangeOperators_bounds (line : List Char) (ln : Nat) :
    ∀ d ∈ checkRangeOperators line ln, LineOk ln d ∧ ColOk line d := by
  intro d hd
  unfold checkRangeOperators at hd
  rcases List.mem_filterMap.1 hd with ⟨t, ht, heq⟩
  have hb := rangeScanF_bound line.length line 0 t ht
  split_ifs at heq
  · rcases Option.some.inj heq with rfl
    refine ⟨⟨rfl, rfl⟩, ?_⟩
    simp only [ColOk, mkDiag]
    omega

theorem iiScanF_bound :
    ∀ (fuel : Nat) (l : List Char) (i : Nat) (pw : Bool), ∀ pr ∈ iiScanF fuel l i pw,
      i ≤ pr.1 ∧ pr.1 + pr.2 ≤ i + l.length
  | 0, l, i, pw => by simp [iiScanF]
  | fuel + 1, [], i, pw => by simp [iiScanF]
  | fuel + 1, c :: rest, i, pw => by
    intro pr hpr
    rw [iiScanF] at hpr
    split at hpr
    · have htw : (rest.takeWhile isWordChar).length ≤ rest.length :=
        (List.takeWhile_prefix isWordChar).length_le
      rcases List.mem_cons.1 hpr with rfl | hpr2
      · show i ≤ i ∧ i + (1 + (rest.takeWhile isWordChar).length) ≤ i + (c :: rest).length
        simp only [List.length_cons]
        omega
      · have hb := iiScanF_bound fuel (rest.drop (rest.takeWhile isWordChar).length)
          (i + 1 + (rest.takeWhile isWordChar).length) true pr hpr2
        rw [List.length_drop] at hb
        simp only [List.length_cons]
        omega
    · have hb := iiScanF_bound fuel rest (i + 1) (isWordChar c) pr hpr
      simp only [List.length_cons]
      omega

theorem checkInvalidIdentifiers_bounds (line : List Char) (ln : Nat) :
    ∀ d ∈ checkInvalidIdentifiers line ln, LineOk ln d ∧ ColOk line d := by
  intro d hd
  unfold checkInvalidIdentifiers at hd
  rcases List.mem_map.1 hd with ⟨pr, hpr, rfl⟩
  have hb := iiScanF_bound line.length line 0 false pr hpr
  refine ⟨⟨rfl, rfl⟩, ?_⟩
  simp only [ColOk, mkDiag]
  omega

theorem checkGeneralRules_bounds (line : List Char) (ln : Nat) :
    ∀ d ∈ checkGeneralRules line ln, LineOk ln d ∧ ColOk line d := by
  intro d hd
  unfold checkGeneralRules at hd
  rcases List.mem_append.1 hd with h | h
  rcases List.mem_append.1 h with h | h
  rcases List.mem_append.1 h with h | h
  rcases List.mem_append.1 h with h | h
  rcases List.mem_append.1 h with h | h
  rcases List.mem_append.1 h with h | h
  · exact checkUnclosedStrings_bounds line ln d h
  · exact checkInvalidIdentifiers_bounds line ln d h
  · exact checkSemicolonUsage_bounds line ln d h
  · exact checkStructRule_bounds line ln d h
  · exact checkAutoProperties_bounds line ln d h
  · exact checkRangeOperators_bounds line ln d h
  · exact checkWithExpressions_bounds line ln d h

theorem lineDiags_bounds (lines : List (List Char)) (ln : Nat) (line : List Char)
    (hnz : mixedIndent line = true → line.any (fun c => !jsIsWs c) = true) :
    ∀ d ∈ lineDiags lines ln line, LineOk ln d ∧ ColOk line d := by
  intro d hd
  unfold lineDiags at hd
  rcases List.mem_append.1 hd with h | h
  rcases List.mem_append.1 h with h | h
  rcases List.mem_append.1 h with h | h
  rcases List.mem_append.1 h with h | h
  rcases List.mem_append.1 h with h | h
  rcases List.mem_append.1 h with h | h
  · exact checkPipelineOperators_bounds line ln d h
  · exact checkMatchExpressions_bounds line ln lines d h
  · exact checkLinqQueries_bounds line ln d h
  · exact checkOperatorOverloading_bounds line ln d h
  · exact checkFunctionRule_bounds line ln d h
  · exact checkBracesAndIndentation_bounds line ln hnz d h
  · exact checkGeneralRules_bounds line ln d h

theorem lineLoop_mem (all : List (List Char)) :
    ∀ (ls : List (List Char)) (i : Nat) (d : Diagnostic), d ∈ lineLoop all ls i →
      ∃ j, j < ls.length ∧ d ∈ lineDiags all (i + j) (ls.getD j [])
  | [], i, d => by simp [lineLoop]
  | l :: rest, i, d => by
    intro hd
    rw [lineLoop] at hd
    rcases List.mem_append.1 hd with h | h
    · exact ⟨0, by simp, by simpa using h⟩
    · rcases lineLoop_mem all rest (i + 1) d h with ⟨j, hj, hmem⟩
      refine ⟨j + 1, by simpa using hj, ?_⟩
      have : i + 1 + j = i + (j + 1) := by omega
      rw [this] at hmem
      simpa using hmem

theorem checkMultiLineConstructs_anchor (lines : List (List Char)) :
    ∀ d ∈ checkMultiLineConstructs lines,
      d.startLine = lastLineIdx lines ∧ d.endLine = lastLineIdx lines ∧
      d.startCol = 0 ∧ d.endCol = lastLineLen lines ∧ d.severity = Severity.error := by
  intro d hd
  unfold checkMultiLineConstructs at hd
  rcases List.mem_append.1 hd with h | h
  rcases List.mem_append.1 h with h | h
  · simp only [braceReport] at h
    split_ifs at h <;> first
      | (rcases List.mem_singleton.1 h with rfl
         exact ⟨rfl, rfl, rfl, rfl, rfl⟩)
      | simp at h
  · simp only [bracketReport] at h
    split_ifs at h <;> first
      | (rcases List.mem_singleton.1 h with rfl
         exact ⟨rfl, rfl, rfl, rfl, rfl⟩)
      | simp at h
  · simp only [parenReport] at h
    split_ifs at h <;> first
      | (rcases List.mem_singleton.1 h with rfl
         exact ⟨rfl, rfl, rfl, rfl, rfl⟩)
      | simp at h

/-- Claim C2 (counterexample): the claim promises an Error for a `|` that is
the last character of the line; but on the line `x|` (a `|` at position 1
with no following character) the pipeline rule emits nothing, because the
regex `/\|[^>]/` must consume a character after the `|`. -/
theorem claim_C2_counterexample :
    ¬ ∃ d ∈ checkPipelineOperators c2TrailLine 0, d.startCol = 1 := by decide

/-- Claim C2 (amended): the Error diagnostics of the pipeline rule are
exactly one per match of the left-to-right non-overlapping scan of
`/\|[^>]/g`, each covering the two characters at its match position; every
such match is a real `|` followed (within the line) by a character other
than `>` — but a `|` that is the line's last character produces no match,
and after a match the scan resumes past both characters.  A line whose
every `|` is followed by `>` yields no Error; the scenario line
`let badPipeline = data | filter;` yields exactly one Error at the `|`
position 23 and `let goodPipeline = data |> filter |> map;` yields no
diagnostic at all. -/
theorem claim_C2_amended (line : List Char) (ln : Nat) :
    ((checkPipelineOperators line ln).filter
        (fun d => decide (d.severity = Severity.error)) =
      (pipelineMatches line 0).map
        (fun (i : Nat) => mkDiag ln (i : Int) ln ((i : Int) + 2)
          Severity.error pipeErrMsg))
    ∧ (∀ i ∈ pipelineMatches line 0,
        line.getD i ' ' = '|' ∧ i + 2 ≤ line.length ∧
          ¬(line.getD (i + 1) ' ' = '>'))
    ∧ (noBadPipe line = true →
        (checkPipelineOperators line ln).filter
          (fun d => decide (d.severity = Severity.error)) = [])
    ∧ checkPipelineOperators c2BadLine 0 = [mkDiag 0 23 0 25 Severity.error pipeErrMsg]
    ∧ checkPipelineOperators c2GoodLine 0 = [] := by
  have hfil : (checkPipelineOperators line ln).filter
      (fun d => decide (d.severity = Severity.error)) =
      (pipelineMatches line 0).map
        (fun (i : Nat) => mkDiag ln (i : Int) ln ((i : Int) + 2)
          Severity.error pipeErrMsg) := by
    unfold checkPipelineOperators
    rw [List.filter_append]
    have h1 : ((pipelineMatches line 0).map
        (fun (i : Nat) => mkDiag ln (i : Int) ln ((i : Int) + 2)
          Severity.error pipeErrMsg)).filter
          (fun d => decide (d.severity = Severity.error)) =
        (pipelineMatches line 0).map
        (fun (i : Nat) => mkDiag ln (i : Int) ln ((i : Int) + 2)
          Severity.error pipeErrMsg) := by
      rw [List.filter_eq_self]
      intro d hd
      rcases List.mem_map.1 hd with ⟨i, _, rfl⟩
      simp [mkDiag]
    have h2 : (if endsList pipeGt (jsTrim line) then
        [mkDiag ln (jsLastIndexOf line pipeGt) ln (line.length : Int)
          Severity.warning pipeContMsg]
      else []).filter (fun d => decide (d.severity = Severity.error)) = [] := by
      split <;> simp [mkDiag]
    rw [h1, h2, List.append_nil]
  refine ⟨hfil, ?_, ?_, by decide, by decide⟩
  · intro i hi
    have h := pipelineMatches_char line line 0 (List.drop_zero line).symm i hi
    exact ⟨h.1, h.2.2, h.2.1⟩
  · intro hB
    have hall : ∀ p, p + 1 < line.length → line.getD p ' ' = '|' →
        line.getD (p + 1) ' ' = '>' := by
      intro p hp hpipe
      have hpr : p ∈ List.range line.length := List.mem_range.2 (by omega)
      have hx := List.all_eq_true.1 hB p hpr
      simp only [hp, hpipe] at hx
      simpa using hx
    rw [hfil, pipelineMatches_nil line hall line 0 (List.drop_zero line).symm]
    rfl

/-- Witness for the amended C2 at the well-formed scenario line. -/
theorem claim_C2_witness :
    (checkPipelineOperators c2GoodLine 0).filter
      (fun d => decide (d.severity = Severity.error)) = [] :=
  (claim_C2_amended c2GoodLine 0).2.2.1 (by decide)

/-- Claim C3 (code bug evaluation): on the line ` => 1` — a `=>` whose left
side is only whitespace — the raw-line match of `/^\s*(.+)\s*=>\s*(.*)$/`
captures a group 1 that trims to the empty pattern, yet
`checkMatchExpressions` emits no diagnostic: the guarding test runs the
regex against `line.trim()`, on which it cannot match with an empty-trimmed
group, so the "Match arm must have a pattern" branch is unreachable. -/
theorem claim_C3_code_eval :
    (armGroup1 c3Line).map jsTrim = some [] ∧
    checkMatchExpressions c3Line 0 [c3Line] = [] := by decide

/-- Claim C4 (code bug evaluation): the scan of the scenario document
`let incomplete = () => ;` — listed in the repository's own
`test-syntax-errors.csc` as intended error #9, "Incomplete arrow
function" — produces no diagnostic at all, in particular not the promised
Warning, because `/=>\s*$/` does not match when a semicolon follows the
arrow. -/
theorem claim_C4_code_eval : scan [c4Line] = [] := by decide

/-- Supporting evaluation: on a line that does end (after trailing
whitespace) with `=>`, such as `let incomplete = () =>`, the scan produces
exactly one Warning "Arrow function body is missing.", anchored at the
arrow — the rule works only in that shape. -/
theorem arrowRule_fixed_line_eval :
    scan [c4FixedLine] = [mkDiag 0 20 0 22 Severity.warning arrowMsg] := by decide

theorem closeSearch_iff : ∀ (ls : List (List Char)) (acc : Int),
    closeSearch ls acc = true ↔
      ∃ k, k < ls.length ∧ acc + ((ls.take (k + 1)).map netBraces).sum = 0
  | [], acc => by simp [closeSearch]
  | l :: rest, acc => by
    simp only [closeSearch]
    split
    · rename_i h0
      simp only [true_iff]
      refine ⟨0, by simp, ?_⟩
      simpa using h0
    · rename_i h0
      rw [closeSearch_iff rest (acc + netBraces l)]
      constructor
      · rintro ⟨k, hk, hsum⟩
        refine ⟨k + 1, by simpa using hk, ?_⟩
        simp only [List.take_succ_cons, List.map_cons, List.sum_cons]
        omega
      · rintro ⟨k, hk, hsum⟩
        cases k with
        | zero =>
          exfalso
          apply h0
          simpa using hsum
        | succ k' =>
          refine ⟨k', by simpa using hk, ?_⟩
          simp only [List.take_succ_cons, List.map_cons, List.sum_cons] at hsum
          omega

/-- Claim C5 (counterexample): on the single-line document `match {}` the
braces balance to zero within the document (the running count is zero
already at the end of the originating line), yet the rule reports "Match
expression is not properly closed": the loop only accepts a zero count on a
line strictly after the originating one, and here no later line exists. -/
theorem claim_C5_counterexample :
    sumNetRange [c5Line] 0 0 = 0 ∧
    checkMatchExpressions c5Line 0 [c5Line] =
      [mkDiag 0 0 0 5 Severity.error matchCloseMsg] := by decide

/-- Claim C5 (amended): for a line containing the token pair `match {`, the
rule emits the unclosed-match Error (anchored at the first occurrence of
the substring `match`) if and only if the running `{`-minus-`}` count
accumulated from the originating line never equals zero at the end of any
strictly later line of the document; in particular a match block whose
count returns to zero only on the originating line itself (e.g. opened and
closed on a final line) is still reported. -/
theorem claim_C5_amended (lines : List (List Char)) (ln : Nat)
    (h1 : ln < lines.length)
    (h2 : matchKeywordTest (lines.getD ln []) = true) :
    ((mkDiag ln (jsIndexOf (lines.getD ln []) kwMatch) ln
        (jsIndexOf (lines.getD ln []) kwMatch + 5) Severity.error matchCloseMsg) ∈
      checkMatchExpressions (lines.getD ln []) ln lines) ↔
    returnsToZero lines ln = false := by
  have hmsg : armMsg ≠ matchCloseMsg := by decide
  have hdrop : lines.drop ln = (lines.getD ln []) :: lines.drop (ln + 1) := by
    rw [List.getD_eq_getElem lines [] h1]
    exact List.drop_eq_getElem_cons h1
  have key : closeSearch (lines.drop (ln + 1)) (netBraces (lines.getD ln [])) = true ↔
      returnsToZero lines ln = true := by
    rw [closeSearch_iff]
    unfold returnsToZero
    rw [List.any_eq_true]
    constructor
    · rintro ⟨k, hk, hsum⟩
      rw [List.length_drop] at hk
      refine ⟨ln + 1 + k, List.mem_range.2 (by omega), ?_⟩
      rw [Bool.and_eq_true, decide_eq_true_eq, decide_eq_true_eq]
      refine ⟨by omega, ?_⟩
      unfold sumNetRange
      have harith : ln + 1 + k + 1 - ln = k + 2 := by omega
      rw [harith, hdrop, List.take_succ_cons, List.map_cons, List.sum_cons]
      omega
    · rintro ⟨i, hir, hcond⟩
      rw [List.mem_range] at hir
      rw [Bool.and_eq_true, decide_eq_true_eq, decide_eq_true_eq] at hcond
      obtain ⟨hlt, hsum⟩ := hcond
      refine ⟨i - ln - 1, by rw [List.length_drop]; omega, ?_⟩
      unfold sumNetRange at hsum
      have harith : i + 1 - ln = (i - ln - 1) + 2 := by omega
      rw [harith, hdrop, List.take_succ_cons, List.map_cons, List.sum_cons] at hsum
      omega
  unfold checkMatchExpressions
  rw [List.mem_append]
  have harm : (mkDiag ln (jsIndexOf (lines.getD ln []) kwMatch) ln
      (jsIndexOf (lines.getD ln []) kwMatch + 5) Severity.error matchCloseMsg) ∉
      checkMatchArm (lines.getD ln []) ln := by
    intro hmem
    unfold checkMatchArm at hmem
    split at hmem
    · split at hmem
      · split at hmem
        · rcases List.mem_singleton.1 hmem with heq
          exact hmsg (congrArg Diagnostic.message heq).symm
        · simp at hmem
      · simp at hmem
    · simp at hmem
  unfold checkMatchClosure
  rw [if_pos h2]
  constructor
  · rintro (hc | hc)
    · split at hc
      · simp at hc
      · rename_i hcs
        rw [Bool.eq_false_iff]
        intro habs
        exact hcs (key.2 habs)
    · exact absurd hc harm
  · intro hr
    left
    split
    · rename_i hcs
      rw [key] at hcs
      rw [hcs] at hr
      cases hr
    · exact List.mem_singleton.2 rfl

/-- Witness for the amended C5 on a two-line document with an unclosed
match block. -/
theorem claim_C5_witness :
    (mkDiag 0 0 0 5 Severity.error matchCloseMsg) ∈
      checkMatchExpressions (c5WitDoc.getD 0 []) 0 c5WitDoc :=
  (claim_C5_amended c5WitDoc 0 (by decide) (by decide)).mpr (by decide)

/-- Claim C6 (counterexample): the line `{x} { get; }` contains a
well-formed auto-property block `{ get; }` (only a `get` token with a
semicolon), yet the rule emits the "Auto-property must include at least one
of get or set" Error — the emission re-matches the line's *first* brace
block `{x}`, which contains neither token, and anchors the range at the
line's first `{` and first `}`. -/
theorem claim_C6_counterexample :
    containsSub c6Line gsBlockLit = true ∧
    checkAutoProperties c6Line 0 = [mkDiag 0 0 0 3 Severity.error autoPropMsg] := by
  decide

/-- Claim C6 (amended): the auto-property rule emits an Error exactly when
the line matches the auto-property pattern `{ (get|set) [;\s]* (get|set)?
[;\s]* }` somewhere *and* the content of the line's first brace block
(first `{` with at least one following non-`}` character before the next
`}`) contains neither "get" nor "set" as a substring; every emitted
diagnostic spans from the line's first `{` to one past its first `}`. -/
theorem claim_C6_amended (line : List Char) (ln : Nat) :
    (checkAutoProperties line ln ≠ [] ↔
      (autoPropTest line &&
        (firstBraceBlock line).elim false
          (fun c => !containsSub c kwGet && !containsSub c kwSet)) = true)
    ∧ (∀ d ∈ checkAutoProperties line ln,
        d = mkDiag ln (jsIndexOf line [lbrace]) ln (jsIndexOf line [rbrace] + 1)
          Severity.error autoPropMsg) := by
  constructor
  · unfold checkAutoProperties
    split
    · rename_i ht
      split
      · rename_i c hc
        split
        · rename_i hgs
          simp [ht, hc, hgs]
        · rename_i hgs
          simp only [Bool.and_eq_true, Bool.not_eq_true'] at hgs
          simp [ht, hc]
          intro hg
          by_contra hs
          rw [Bool.not_eq_true] at hs
          exact hgs ⟨hg, hs⟩
      · rename_i hc
        simp [ht, hc]
    · rename_i ht
      rw [Bool.not_eq_true] at ht
      simp [ht]
  · intro d hd
    unfold checkAutoProperties at hd
    split at hd
    · split at hd
      · split at hd
        · exact List.mem_singleton.1 hd
        · simp at hd
      · simp at hd
    · simp at hd

/-- Witness for the amended C6: the counterexample line does produce a
diagnostic, via the right-to-left direction of the characterization. -/
theorem claim_C6_witness : checkAutoProperties c6Line 0 ≠ [] :=
  (claim_C6_amended c6Line 0).1.mpr (by decide)

/-! ## Claim C7: range operator validation -/

theorem leadsWith_append : ∀ (a b s : List Char),
    leadsWith (a ++ b) s = (leadsWith a s && leadsWith b (s.drop a.length))
  | [], b, s => by simp [leadsWith]
  | c :: cs, b, [] => by simp [leadsWith]
  | c :: cs, b, d :: ds => by
    simp [leadsWith, leadsWith_append cs b ds, Bool.and_assoc]

theorem takeWhile_leads {p : Char → Bool} (s : List Char) :
    leadsWith (s.takeWhile p) s = true :=
  (leadsWith_iff _ s).2 (List.takeWhile_prefix p)

theorem takeWhile_all {p : Char → Bool} (s : List Char) :
    (s.takeWhile p).all p = true := by
  rw [List.all_eq_true]
  intro c hc
  exact List.mem_takeWhile_imp hc

theorem rangeMatchHere_sound {s n1 n2 : List Char}
    (h : rangeMatchHere s = some (n1, n2)) :
    n1 ≠ [] ∧ n1.all isDigitChar = true ∧
    (n2 = ['_'] ∨ (n2 ≠ [] ∧ n2.all isDigitChar = true)) ∧
    leadsWith (n1 ++ dotdotTok ++ n2) s = true := by
  have hdd : dotdotTok.length = 2 := by simp [dotdotTok]
  simp only [rangeMatchHere] at h
  split_ifs at h with h1 h2 h3
  · rw [Bool.and_eq_true] at h1
    rcases Option.some.inj h with h'
    rcases Prod.mk.injEq .. ▸ h' with ⟨rfl, rfl⟩
    have hne : s.takeWhile isDigitChar ≠ [] := by
      intro hc
      have := h1.1
      rw [hc] at this
      simp at this
    have hne2 : (s.drop ((s.takeWhile isDigitChar).length + 2)).takeWhile
        isDigitChar ≠ [] := by
      intro hc
      rw [hc] at h2
      simp at h2
    refine ⟨hne, takeWhile_all s, Or.inr ⟨hne2, takeWhile_all _⟩, ?_⟩
    rw [leadsWith_append, leadsWith_append, Bool.and_eq_true, Bool.and_eq_true]
    refine ⟨⟨takeWhile_leads s, h1.2⟩, ?_⟩
    rw [List.length_append, hdd]
    exact takeWhile_leads _
  · rw [Bool.and_eq_true] at h1
    rcases Option.some.inj h with h'
    rcases Prod.mk.injEq .. ▸ h' with ⟨rfl, rfl⟩
    have hne : s.takeWhile isDigitChar ≠ [] := by
      intro hc
      have := h1.1
      rw [hc] at this
      simp at this
    refine ⟨hne, takeWhile_all s, Or.inl rfl, ?_⟩
    rw [leadsWith_append, leadsWith_append, Bool.and_eq_true, Bool.and_eq_true]
    refine ⟨⟨takeWhile_leads s, h1.2⟩, ?_⟩
    rw [List.length_append, hdd]
    rcases List.head?_eq_some_iff.1 h3 with ⟨ys, hys⟩
    rw [hys]
    simp [leadsWith]

theorem rangeScanF_sound (L : List Char) :
    ∀ (fuel : Nat) (l : List Char) (i : Nat), l = L.drop i →
      ∀ t ∈ rangeScanF fuel l i,
        t.2.1 ≠ [] ∧ t.2.1.all isDigitChar = true ∧
        (t.2.2 = ['_'] ∨ (t.2.2 ≠ [] ∧ t.2.2.all isDigitChar = true)) ∧
        leadsWith (t.2.1 ++ dotdotTok ++ t.2.2) (L.drop t.1) = true
  | 0, l, i => by simp [rangeScanF]
  | fuel + 1, [], i => by simp [rangeScanF]
  | fuel + 1, c :: rest, i => by
    intro hL t ht
    rw [rangeScanF] at ht
    split at ht
    · rename_i n1 n2 hm
      rcases List.mem_cons.1 ht with rfl | ht2
      · have hs := rangeMatchHere_sound hm
        rw [hL] at hs
        exact hs
      · have hK : (c :: rest).drop (n1.length + 2 + n2.length) =
            L.drop (i + n1.length + 2 + n2.length) := by
          rw [hL, List.drop_drop]
          congr 1
          omega
        exact rangeScanF_sound L fuel ((c :: rest).drop (n1.length + 2 + n2.length))
          (i + n1.length + 2 + n2.length) hK t ht2
    · have hrest : rest = L.drop (i + 1) := by
        have hx := congrArg (List.drop 1) hL
        simpa [List.drop_drop] using hx
      exact rangeScanF_sound L fuel rest (i + 1) hrest t ht

theorem rangeScanF_inj :
    ∀ (fuel : Nat) (l : List Char) (i : Nat) (t t' : Nat × List Char × List Char),
      t ∈ rangeScanF fuel l i → t' ∈ rangeScanF fuel l i → t.1 = t'.1 → t = t'
  | 0, l, i, t, t' => by simp [rangeScanF]
  | fuel + 1, [], i, t, t' => by simp [rangeScanF]
  | fuel + 1, c :: rest, i, t, t' => by
    intro ht ht' heq
    rw [rangeScanF] at ht ht'
    split at ht
    · rename_i n1 n2 hm
      split at ht' <;> rename_i hm'
      · rename_i n1' n2'
        obtain ⟨h1eq, h2eq⟩ : n1 = n1' ∧ n2 = n2' := by
          have hx := Option.some.inj (hm.symm.trans hm')
          exact ⟨congrArg Prod.fst hx, congrArg Prod.snd hx⟩
        subst h1eq
        subst h2eq
        have hlen := rangeMatchHere_len hm
        rcases List.mem_cons.1 ht with h1m | ht2 <;>
          rcases List.mem_cons.1 ht' with h2m | ht2'
        · rw [h1m, h2m]
        · exfalso
          have hb := rangeScanF_bound fuel ((c :: rest).drop (n1.length + 2 + n2.length))
            (i + n1.length + 2 + n2.length) t' ht2'
          have hti : t.1 = i := by rw [h1m]
          omega
        · exfalso
          have hb := rangeScanF_bound fuel ((c :: rest).drop (n1.length + 2 + n2.length))
            (i + n1.length + 2 + n2.length) t ht2
          have hti : t'.1 = i := by rw [h2m]
          omega
        · exact rangeScanF_inj fuel ((c :: rest).drop (n1.length + 2 + n2.length))
            (i + n1.length + 2 + n2.length) t t' ht2 ht2' heq
      · exact absurd (hm'.symm.trans hm) (by simp)
    · rename_i hm
      split at ht' <;> rename_i hm'
      · exact absurd (hm.symm.trans hm') (by simp)
      · exact rangeScanF_inj fuel rest (i + 1) t t' ht ht' heq

theorem checkRangeOperators_mem (line : List Char) (ln : Nat) (d : Diagnostic) :
    d ∈ checkRangeOperators line ln ↔
      ∃ t ∈ rangeMatches line, ¬(t.2.2 = ['_']) ∧
        digitsToNat t.2.2 ≤ digitsToNat t.2.1 ∧
        d = mkDiag ln (t.1 : Int) ln
          ((t.1 : Int) + (t.2.1.length : Int) + 2 + (t.2.2.length : Int))
          Severity.error rangeMsg := by
  unfold checkRangeOperators
  rw [List.mem_filterMap]
  constructor
  · rintro ⟨t, ht, heq⟩
    split_ifs at heq with h1 h2
    · exact ⟨t, ht, h1, h2, (Option.some.inj heq).symm⟩
  · rintro ⟨t, ht, h1, h2, rfl⟩
    refine ⟨t, ht, ?_⟩
    rw [if_neg h1, if_pos h2]

/-- Claim C7 (counterexample): in the line `5..4..3` the token `4..3`
(digit sequences 4 ≥ 3) occurs at position 3, so the claim demands an Error
at that token's span; but the `exec` scan consumes `5..4` first and resumes
past it, so the rule's only diagnostic is the one at position 0 for `5..4`
and no diagnostic starts at position 3. -/
theorem claim_C7_counterexample :
    leadsWith c7Tok (c7Line.drop 3) = true ∧
    (∀ d ∈ checkRangeOperators c7Line 0, ¬(d.startCol = 3)) ∧
    checkRangeOperators c7Line 0 = [mkDiag 0 0 0 4 Severity.error rangeMsg] := by
  decide

/-- Claim C7 (amended): the range rule acts on the matches of the
left-to-right non-overlapping `exec` scan of `/(\d+)\.\.(\d+|_)/g`.  Every
scan match is a genuine `N..M` or `N.._` occurrence in the line (digit
sequences, starting at the reported position); a match with `_` as the
upper bound, or with `N < M` numerically, contributes no diagnostic at its
position; a numeric match with `N ≥ M` contributes exactly the one Error
spanning the token.  Tokens overlapping an earlier match are skipped by the
scan and are not considered. -/
theorem claim_C7_amended (line : List Char) (ln : Nat) :
    (∀ t ∈ rangeMatches line,
        t.2.1 ≠ [] ∧ t.2.1.all isDigitChar = true ∧
        (t.2.2 = ['_'] ∨ (t.2.2 ≠ [] ∧ t.2.2.all isDigitChar = true)) ∧
        leadsWith (t.2.1 ++ dotdotTok ++ t.2.2) (line.drop t.1) = true)
    ∧ (∀ t ∈ rangeMatches line, ¬(t.2.2 = ['_']) →
        digitsToNat t.2.2 ≤ digitsToNat t.2.1 →
        (mkDiag ln (t.1 : Int) ln
          ((t.1 : Int) + (t.2.1.length : Int) + 2 + (t.2.2.length : Int))
          Severity.error rangeMsg) ∈ checkRangeOperators line ln)
    ∧ (∀ t ∈ rangeMatches line,
        (t.2.2 = ['_'] ∨ digitsToNat t.2.1 < digitsToNat t.2.2) →
        ∀ d ∈ checkRangeOperators line ln, ¬(d.startCol = (t.1 : Int))) := by
  refine ⟨?_, ?_, ?_⟩
  · intro t ht
    exact rangeScanF_sound line line.length line 0 (List.drop_zero line).symm t ht
  · intro t ht h1 h2
    exact (checkRangeOperators_mem line ln _).2 ⟨t, ht, h1, h2, rfl⟩
  · intro t ht hgood d hd habs
    rcases (checkRangeOperators_mem line ln d).1 hd with ⟨t', ht', h1, h2, rfl⟩
    have hstart : t'.1 = t.1 := by
      have : ((t'.1 : Nat) : Int) = ((t.1 : Nat) : Int) := by
        simpa [mkDiag] using habs
      exact_mod_cast this
    have : t' = t := rangeScanF_inj line.length line 0 t' t ht' ht hstart
    rw [this] at h1 h2
    rcases hgood with hu | hlt
    · exact h1 hu
    · omega

/-- Witness for the amended C7: `10..1` yields the Error spanning the whole
token. -/
theorem claim_C7_witness :
    (mkDiag 0 0 0 5 Severity.error rangeMsg) ∈ checkRangeOperators c7WitLine 0 :=
  (claim_C7_amended c7WitLine 0).2.1 c7WitTok (by decide) (by decide) (by decide)

theorem sumNet_eq (o c : Char) : ∀ (lines : List (List Char)),
    sumNet o c lines = (sumCount o lines : Int) - (sumCount c lines : Int)
  | [] => by simp [sumNet, sumCount]
  | l :: rest => by
    have ih := sumNet_eq o c rest
    simp only [sumNet, sumCount, List.map_cons, List.sum_cons] at ih ⊢
    push_cast at ih ⊢
    omega

/-- Claim C8 (confirmed): when the counts of `{`/`}`, `[`/`]` and `(`/`)`
over the whole document are each equal, the document-global rule
contributes no diagnostic; a nonzero brace counter (positive or negative)
is reported exactly once, anchored at the final line; brackets and
parentheses are reported exactly once when positive and not at all when
negative. -/
theorem claim_C8 (lines : List (List Char)) (_hne : lines ≠ []) :
    ((sumCount lbrace lines = sumCount rbrace lines ∧
      sumCount '[' lines = sumCount ']' lines ∧
      sumCount '(' lines = sumCount ')' lines) →
        checkMultiLineConstructs lines = [])
    ∧ (¬(sumNet lbrace rbrace lines = 0) →
        ∃ d, braceReport lines = [d] ∧ anchoredLast lines d)
    ∧ (0 < sumNet '[' ']' lines →
        ∃ d, bracketReport lines = [d] ∧ anchoredLast lines d)
    ∧ (sumNet '[' ']' lines < 0 → bracketReport lines = [])
    ∧ (0 < sumNet '(' ')' lines →
        ∃ d, parenReport lines = [d] ∧ anchoredLast lines d)
    ∧ (sumNet '(' ')' lines < 0 → parenReport lines = []) := by
  refine ⟨?_, ?_, ?_, ?_, ?_, ?_⟩
  · rintro ⟨hb, hk, hp⟩
    have hb0 : sumNet lbrace rbrace lines = 0 := by
      rw [sumNet_eq, hb]
      omega
    have hk0 : sumNet '[' ']' lines = 0 := by
      rw [sumNet_eq, hk]
      omega
    have hp0 : sumNet '(' ')' lines = 0 := by
      rw [sumNet_eq, hp]
      omega
    unfold checkMultiLineConstructs
    have e1 : braceReport lines = [] := by
      simp only [braceReport]
      rw [if_neg (by omega), if_neg (by omega)]
    have e2 : bracketReport lines = [] := by
      simp only [bracketReport]
      rw [if_neg (by omega)]
    have e3 : parenReport lines = [] := by
      simp only [parenReport]
      rw [if_neg (by omega)]
    rw [e1, e2, e3]
    rfl
  · intro hb
    simp only [braceReport]
    rcases lt_or_gt_of_ne hb with hneg | hpos
    · rw [if_neg (by omega), if_pos hneg]
      exact ⟨_, rfl, rfl, rfl, rfl, rfl, rfl⟩
    · rw [if_pos hpos]
      exact ⟨_, rfl, rfl, rfl, rfl, rfl, rfl⟩
  · intro hk
    simp only [bracketReport]
    rw [if_pos hk]
    exact ⟨_, rfl, rfl, rfl, rfl, rfl, rfl⟩
  · intro hk
    simp only [bracketReport]
    rw [if_neg (by omega)]
  · intro hp
    simp only [parenReport]
    rw [if_pos hp]
    exact ⟨_, rfl, rfl, rfl, rfl, rfl, rfl⟩
  · intro hp
    simp only [parenReport]
    rw [if_neg (by omega)]

/-- Witness for C8 on a balanced one-line document. -/
theorem claim_C8_witness : checkMultiLineConstructs c8WitDoc = [] :=
  (claim_C8 c8WitDoc (by decide)).1 (by decide)

/-! ## Claim C9: disabled diagnostics leave the collection untouched -/

/-- Claim C9 (confirmed): when the diagnostics-enabled flag is false,
`updateDiagnostics` returns before touching the collection: the collection
value is unchanged, so every document identity — including the one being
updated — keeps exactly the diagnostics it had stored (they are not
replaced by an empty list). -/
theorem claim_C9 (cfg : ScanConfig) (uri : String) (docLines : List (List Char))
    (coll : DiagCollection) (h : cfg.diagnosticsEnabled = false) :
    updateDiagnostics cfg uri docLines coll = coll ∧
    (∀ u, collGet (updateDiagnostics cfg uri docLines coll) u = collGet coll u) := by
  have he : updateDiagnostics cfg uri docLines coll = coll := by
    unfold updateDiagnostics
    rw [h]
    rfl
  exact ⟨he, fun u => by rw [he]⟩

/-- Witness for C9: with diagnostics disabled, an update of `file.csc`
(whose text would scan clean) leaves the previously stored error in
place. -/
theorem claim_C9_witness :
    updateDiagnostics c9WitCfg "file.csc" [[]] c9WitColl = c9WitColl :=
  (claim_C9 c9WitCfg "file.csc" [[]] c9WitColl rfl).1

/-! ## Claim C10: leading-digit identifier rule -/

theorem takeWhile_pos_prop {p : Char → Bool} :
    ∀ (r : List Char) (k : Nat), k < (r.takeWhile p).length →
      p (r.getD k ' ') = true
  | [], k => by simp
  | c :: t, k => by
    rw [List.takeWhile_cons]
    split
    · rename_i hpc
      cases k with
      | zero =>
        intro _
        simpa using hpc
      | succ k' =>
        intro hk
        simp only [List.length_cons] at hk
        have := takeWhile_pos_prop (p := p) t k' (by omega)
        simpa using this
    · intro hk
      simp at hk

theorem takeWhile_length_eq {p : Char → Bool} :
    ∀ (r : List Char) (m : Nat), m ≤ r.length →
      (∀ k, k < m → p (r.getD k ' ') = true) →
      (m < r.length → p (r.getD m ' ') = false) →
      (r.takeWhile p).length = m
  | [], m, h, _, _ => by
    simp only [List.length_nil] at h
    simp only [List.takeWhile_nil, List.length_nil]
    omega
  | c :: t, 0, _, _, hm => by
    have hc := hm (by simp)
    simp only [List.getD_cons_zero] at hc
    rw [List.takeWhile_cons, if_neg (by simp [hc])]
    rfl
  | c :: t, m + 1, h, hk, hm => by
    have hle : m ≤ t.length := by
      simp only [List.length_cons] at h
      omega
    have hc : p c = true := by
      have := hk 0 (by omega)
      simpa using this
    rw [List.takeWhile_cons, if_pos (by simp [hc])]
    simp only [List.length_cons]
    have hrec := takeWhile_length_eq t m hle
      (fun k hk2 => by
        have := hk (k + 1) (by omega)
        simpa using this)
      (fun h2 => by
        have hx := hm (by
          simp only [List.length_cons]
          omega)
        simpa using hx)
    omega

theorem iiScanF_sound (L : List Char) :
    ∀ (fuel : Nat) (l : List Char) (i : Nat) (pw : Bool), l = L.drop i →
      ∀ pr ∈ iiScanF fuel l i pw,
        2 ≤ pr.2 ∧ pr.1 + pr.2 ≤ L.length ∧
        (∀ k, pr.1 ≤ k → k < pr.1 + pr.2 → isWordChar (L.getD k ' ') = true)
  | 0, l, i, pw => by simp [iiScanF]
  | fuel + 1, [], i, pw => by simp [iiScanF]
  | fuel + 1, c :: rest, i, pw => by
    intro hL pr hpr
    have hc : L.getD i ' ' = c := by
      rw [← Nat.add_zero i, ← getD_drop, ← hL]
      rfl
    have hrest : rest = L.drop (i + 1) := by
      have hx := congrArg (List.drop 1) hL
      simpa [List.drop_drop] using hx
    have hlenl : rest.length + 1 = L.length - i := by
      have hx := congrArg List.length hL
      simp only [List.length_cons, List.length_drop] at hx
      omega
    rw [iiScanF] at hpr
    split at hpr
    · rename_i hcond
      simp only [Bool.and_eq_true, Bool.not_eq_true', decide_eq_true_eq] at hcond
      have htwle : (rest.takeWhile isWordChar).length ≤ rest.length :=
        (List.takeWhile_prefix isWordChar).length_le
      rcases List.mem_cons.1 hpr with rfl | hpr2
      · refine ⟨by omega, by omega, ?_⟩
        intro k hk1 hk2
        rcases Nat.eq_or_lt_of_le hk1 with rfl | hklt
        · rw [hc]
          exact isWordChar_of_isDigitChar hcond.1.2
        · have hidx : k - (i + 1) < (rest.takeWhile isWordChar).length := by omega
          have := takeWhile_pos_prop rest (k - (i + 1)) hidx
          rw [hrest, getD_drop] at this
          have harith : i + 1 + (k - (i + 1)) = k := by omega
          rwa [harith] at this
      · have hdd : rest.drop (rest.takeWhile isWordChar).length =
            L.drop (i + 1 + (rest.takeWhile isWordChar).length) := by
          rw [hrest, List.drop_drop]
        exact iiScanF_sound L fuel (rest.drop (rest.takeWhile isWordChar).length)
          (i + 1 + (rest.takeWhile isWordChar).length) true hdd pr hpr2
    · exact iiScanF_sound L fuel rest (i + 1) (isWordChar c) hrest pr hpr

theorem iiScanF_complete (L : List Char) (p len : Nat)
    (hlen2 : 2 ≤ len) (hbound : p + len ≤ L.length)
    (hdig : ∀ k, p ≤ k → k < p + len → isDigitChar (L.getD k ' ') = true)
    (hb : p = 0 ∨ isWordChar (L.getD (p - 1) ' ') = false)
    (ha : L.length ≤ p + len ∨ isWordChar (L.getD (p + len) ' ') = false) :
    ∀ (fuel : Nat) (l : List Char) (i : Nat) (pw : Bool),
      l = L.drop i → l.length ≤ fuel → i ≤ p →
      (i = 0 → pw = false) → (0 < i → pw = isWordChar (L.getD (i - 1) ' ')) →
      (p, len) ∈ iiScanF fuel l i pw
  | 0, l, i, pw => by
    intro hL hfuel hip _ _
    exfalso
    have hx := congrArg List.length hL
    rw [List.length_drop] at hx
    omega
  | fuel + 1, [], i, pw => by
    intro hL _ hip _ _
    exfalso
    have hx := congrArg List.length hL
    rw [List.length_drop] at hx
    simp only [List.length_nil] at hx
    omega
  | fuel + 1, c :: rest, i, pw => by
    intro hL hfuel hip hpw0 hpwS
    have hc : L.getD i ' ' = c := by
      rw [← Nat.add_zero i, ← getD_drop, ← hL]
      rfl
    have hrest : rest = L.drop (i + 1) := by
      have hx := congrArg (List.drop 1) hL
      simpa [List.drop_drop] using hx
    have hlenl : rest.length + 1 = L.length - i := by
      have hx := congrArg List.length hL
      simp only [List.length_cons, List.length_drop] at hx
      omega
    have hfuel' : rest.length ≤ fuel := by
      simp only [List.length_cons] at hfuel
      omega
    rw [iiScanF]
    by_cases hip2 : i = p
    · subst hip2
      have hpw : pw = false := by
        rcases Nat.eq_zero_or_pos i with rfl | hpos
        · exact hpw0 rfl
        · rcases hb with h0 | hw
          · omega
          · rw [hpwS hpos, hw]
      have hcd : isDigitChar c = true := by
        rw [← hc]
        exact hdig i (le_refl i) (by omega)
      have htw : (rest.takeWhile isWordChar).length = len - 1 := by
        apply takeWhile_length_eq
        · omega
        · intro k hk
          rw [hrest, getD_drop]
          apply isWordChar_of_isDigitChar
          exact hdig (i + 1 + k) (by omega) (by omega)
        · intro hlt
          rw [hrest, getD_drop]
          rcases ha with hend | hw
          · omega
          · have harith : i + 1 + (len - 1) = i + len := by omega
            rwa [harith]
      have hcond : (!pw && isDigitChar c &&
          decide (2 ≤ 1 + (rest.takeWhile isWordChar).length)) = true := by
        rw [hpw, hcd, htw]
        simp only [Bool.not_false, Bool.true_and, decide_eq_true_eq]
        omega
      rw [if_pos hcond]
      have hhead : 1 + (rest.takeWhile isWordChar).length = len := by
        rw [htw]
        omega
      rw [hhead]
      exact List.mem_cons_self _ _
    · have hilt : i < p := by omega
      split
      · rename_i hcond
        simp only [Bool.and_eq_true, Bool.not_eq_true', decide_eq_true_eq] at hcond
        have hge : i + 1 + (rest.takeWhile isWordChar).length ≤ p := by
          by_contra hcon
          have hple : p - 1 ≥ i := by omega
          have hword : isWordChar (L.getD (p - 1) ' ') = true := by
            rcases Nat.eq_or_lt_of_le hple with heq | hgt
            · rw [← heq, hc]
              exact isWordChar_of_isDigitChar hcond.1.2
            · have hidx : p - 1 - (i + 1) < (rest.takeWhile isWordChar).length := by
                omega
              have hx := takeWhile_pos_prop (p := isWordChar) rest (p - 1 - (i + 1)) hidx
              rw [hrest, getD_drop] at hx
              have harith : i + 1 + (p - 1 - (i + 1)) = p - 1 := by omega
              rwa [harith] at hx
          rcases hb with h0 | hw
          · omega
          · rw [hword] at hw
            cases hw
        apply List.mem_cons_of_mem
        apply iiScanF_complete L p len hlen2 hbound hdig hb ha fuel
        · rw [hrest, List.drop_drop]
        · rw [List.length_drop]
          omega
        · exact hge
        · intro habs
          omega
        · intro _
          rcases Nat.eq_zero_or_pos (rest.takeWhile isWordChar).length with hz | hpos
          · rw [hz]
            have harith : i + 1 + 0 - 1 = i := by omega
            rw [harith, hc]
            exact (isWordChar_of_isDigitChar hcond.1.2).symm
          · have hx := takeWhile_pos_prop (p := isWordChar) rest
              ((rest.takeWhile isWordChar).length - 1) (by omega)
            have hgen : ∀ m, m = (rest.takeWhile isWordChar).length →
                isWordChar (rest.getD (m - 1) ' ') = true →
                true = isWordChar (L.getD (i + 1 + (rest.takeWhile isWordChar).length - 1) ' ') := by
              intro m hm hx2
              rw [hrest, getD_drop] at hx2
              have harith : i + 1 + (m - 1) = i + 1 + m - 1 := by omega
              rw [harith, hm] at hx2
              exact hx2.symm
            exact hgen _ rfl hx
      · apply iiScanF_complete L p len hlen2 hbound hdig hb ha fuel rest (i + 1)
          (isWordChar c) hrest hfuel' (by omega)
        · intro habs
          omega
        · intro _
          have harith : i + 1 - 1 = i := by omega
          rw [harith, hc]

/-- Claim C10 (confirmed): every standalone run of two or more digits
(for instance the numeric literal `123`, or the two-digit bound of
`1..10`) is flagged by the leading-digit-identifier rule with the Error
"Identifiers cannot start with a number." spanning exactly the run — the
pattern `\b\d+\w+\b` is satisfied by splitting the digit run itself —
while a standalone single digit is exempt (no diagnostic of this rule
covers its position). -/
theorem claim_C10 (line : List Char) (ln p len : Nat)
    (h : standaloneDigitRun line p len) :
    (2 ≤ len →
      (mkDiag ln (p : Int) ln ((p : Int) + (len : Int)) Severity.error invalidIdMsg) ∈
        checkInvalidIdentifiers line ln)
    ∧ (len = 1 → ∀ d ∈ checkInvalidIdentifiers line ln,
        ¬(d.startCol ≤ (p : Int) ∧ (p : Int) < d.endCol)) := by
  obtain ⟨hlen1, hbound, hdigR, hb, ha⟩ := h
  have hdig : ∀ k, p ≤ k → k < p + len → isDigitChar (line.getD k ' ') = true := by
    intro k hk1 hk2
    have := hdigR (k - p) (List.mem_range.2 (by omega))
    have harith : p + (k - p) = k := by omega
    rwa [harith] at this
  constructor
  · intro hlen2
    unfold checkInvalidIdentifiers
    rw [List.mem_map]
    refine ⟨(p, len), ?_, rfl⟩
    unfold invalidIdMatches
    exact iiScanF_complete line p len hlen2 hbound hdig hb ha line.length line 0 false
      (List.drop_zero line).symm (le_refl _) (by omega) (fun _ => rfl) (by omega)
  · rintro rfl d hd ⟨hc1, hc2⟩
    unfold checkInvalidIdentifiers at hd
    rcases List.mem_map.1 hd with ⟨pr, hpr, rfl⟩
    have hs := iiScanF_sound line line.length line 0 false
      (List.drop_zero line).symm pr hpr
    simp only [mkDiag] at hc1 hc2
    have hq1 : pr.1 ≤ p := by exact_mod_cast hc1
    have hq2 : p < pr.1 + pr.2 := by exact_mod_cast hc2
    rcases Nat.eq_or_lt_of_le hq1 with heq | hlt
    · rcases ha with hend | hw
      · omega
      · have hww := hs.2.2 (p + 1) (by omega) (by omega)
        rw [hww] at hw
        cases hw
    · rcases hb with h0 | hw
      · omega
      · have hww := hs.2.2 (p - 1) (by omega) (by omega)
        rw [hww] at hw
        cases hw

/-- Witness for C10: in `1..10` the two-digit bound `10` (a standalone
digit run of length 2 at position 3) receives the invalid-identifier
Error spanning exactly positions 3-5. -/
theorem claim_C10_witness :
    (mkDiag 0 3 0 5 Severity.error invalidIdMsg) ∈ checkInvalidIdentifiers c10Line 0 :=
  (claim_C10 c10Line 0 3 2 (by decide)).1 (by decide)

